import Mathlib

/-!
Verification of the AI-Planner schedule-agent pipeline.

This file shallowly embeds the TypeScript sources of the repository:

* `src/agent/scheduleAgent.ts`  — model-payload parsing, tool execution,
  and the bounded agent loop (`runScheduleAgent`);
* `src/agent/llmClient.ts`      — `readTextContent` / `requestLlmResponse`;
* the conflict-map module        — `toTimeRange` / `overlaps` /
  `buildTaskConflictMap`;
* the proposal applier           — `handleApplyProposal`;
* `src/context/AppDataContext.tsx` — the task store operations
  (`createTask`, `updateTask`, `removeTask`, `undoLastChange`, `pushUndo`).

Modelling conventions:

* JSON values produced by `JSON.parse` are the inductive `JsonValue`;
  JS numbers are rationals (NaN / Infinity, which can only reach the
  embedded code through invalid `Date` parses, are outside the model).
* Wall-clock instants that the code compares numerically
  (`Date.now()`, `new Date(s).getTime()`) are `Int` epoch milliseconds;
  ISO timestamp strings stored in records stay `String`, and conversion
  from a string to its epoch value is an explicit parameter `getTime`.
* Effectful collaborators (the LLM transport, IndexedDB) are passed in
  as explicit values / functions, and async code is sequentialized, as
  each `await` chain in the source is strictly sequential.
-/

namespace AIPlanner

/-- `TaskStatus` from `src/models.ts`: `"NOT_DONE" | "ON_HOLD" | "DONE"`. -/
inductive TaskStatus where
  | NOT_DONE
  | ON_HOLD
  | DONE
deriving DecidableEq, Repr

/-- `RecurrencePattern` from `src/models.ts`. -/
inductive RecurrencePattern where
  | NONE
  | DAILY
  | WEEKLY
  | MONTHLY
deriving DecidableEq, Repr

/-- JSON values as produced by `JSON.parse`. -/
inductive JsonValue where
  | null
  | bool (b : Bool)
  | num (q : Rat)
  | str (s : String)
  | arr (items : List JsonValue)
  | obj (fields : List (String × JsonValue))

namespace JsonValue

/-- Last-occurrence field lookup (`JSON.parse` keeps the last duplicate key). -/
def lookupField : List (String × JsonValue) → String → Option JsonValue
  | [], _ => none
  | (k, v) :: rest, key =>
    match lookupField rest key with
    | some r => some r
    | none => if k = key then some v else none

/-- `isRecord` from `scheduleAgent.ts`: a truthy non-array `object`.
Among JSON values exactly the objects qualify (`null` is falsy). -/
def isRecord : JsonValue → Bool
  | .obj _ => true
  | _ => false

/-- JS property access `v.k` on a parsed JSON value: defined on objects,
`undefined` (here `none`) otherwise. -/
def getField (v : JsonValue) (k : String) : Option JsonValue :=
  match v with
  | .obj fields => lookupField fields k
  | _ => none

end JsonValue

open JsonValue

/-- `typeof x === "string"` projection: the string when the value is one. -/
def asString : Option JsonValue → Option String
  | some (.str s) => some s
  | _ => none

/-- `typeof x === "boolean"` projection. -/
def asBool : Option JsonValue → Option Bool
  | some (.bool b) => some b
  | _ => none

/-- `typeof x === "number"` projection. -/
def asNum : Option JsonValue → Option Rat
  | some (.num q) => some q
  | _ => none

/-- `isTaskStatus` from `scheduleAgent.ts`, as a partial decoder: `some`
exactly on the three valid status strings. -/
def asTaskStatus : Option JsonValue → Option TaskStatus
  | some (.str "NOT_DONE") => some .NOT_DONE
  | some (.str "ON_HOLD") => some .ON_HOLD
  | some (.str "DONE") => some .DONE
  | _ => none

/-- `AgentCreateTaskOperation` from `scheduleAgent.ts`. -/
structure AgentCreateTaskOperation where
  title : String
  content : String
  taskTypeId : String
  projectId : String
  status : TaskStatus
  startAt : String
  endAt : Option String
  isMajor : Bool
deriving DecidableEq, Repr

/-- The sparse change-set of `AgentUpdateTaskOperation`. For `endAt`,
`some none` models an explicit JSON `null` ("clear the end time"). -/
structure TaskChanges where
  title : Option String
  content : Option String
  taskTypeId : Option String
  projectId : Option String
  status : Option TaskStatus
  startAt : Option String
  endAt : Option (Option String)
  isMajor : Option Bool
deriving DecidableEq, Repr

/-- `Object.keys(changes).length === 0` for the change-set built by
`parseUpdateOperation` (a key is present exactly when the field was set). -/
def TaskChanges.isEmpty (c : TaskChanges) : Bool :=
  c.title.isNone && c.content.isNone && c.taskTypeId.isNone && c.projectId.isNone &&
    c.status.isNone && c.startAt.isNone && c.endAt.isNone && c.isMajor.isNone

/-- `AgentUpdateTaskOperation` from `scheduleAgent.ts`. -/
structure AgentUpdateTaskOperation where
  taskId : String
  changes : TaskChanges
deriving DecidableEq, Repr

/-- `AgentDeleteTaskOperation` from `scheduleAgent.ts`. -/
structure AgentDeleteTaskOperation where
  taskId : String
  reason : Option String
deriving DecidableEq, Repr

/-- `AgentOperation`, the tagged union of the three operations. -/
inductive AgentOperation where
  | create (op : AgentCreateTaskOperation)
  | update (op : AgentUpdateTaskOperation)
  | delete (op : AgentDeleteTaskOperation)
deriving DecidableEq, Repr

/-- `AgentProposal` from `scheduleAgent.ts`. -/
structure AgentProposal where
  summary : String
  operations : List AgentOperation
deriving DecidableEq, Repr

/-- The guard `isRecord(value) && value.action === <action>` shared by the
three operation parsers (the source phrases it as the negated disjunction).
Comparing through `asString` is exact: a non-string `action` never equals
the string literal. -/
def isActionRecord (v : JsonValue) (action : String) : Bool :=
  v.isRecord && (asString (v.getField "action") == some action)

/-- `parseCreateOperation` (`scheduleAgent.ts` lines 187–212): requires a
record with `action === "create_task"` and string `title` / `taskTypeId` /
`projectId` / `startAt`; remaining fields are defaulted. -/
def parseCreateOperation (v : JsonValue) : Option AgentCreateTaskOperation :=
  if isActionRecord v "create_task" then
    match asString (v.getField "title"), asString (v.getField "taskTypeId"),
        asString (v.getField "projectId"), asString (v.getField "startAt") with
    | some title, some taskTypeId, some projectId, some startAt =>
      some {
        title := title
        content := (asString (v.getField "content")).getD ""
        taskTypeId := taskTypeId
        projectId := projectId
        status := (asTaskStatus (v.getField "status")).getD .NOT_DONE
        startAt := startAt
        endAt := asString (v.getField "endAt")
        isMajor := (asBool (v.getField "isMajor")).getD false
      }
    | _, _, _, _ => none
  else none

/-- `const sourceChanges = isRecord(value.changes) ? value.changes : {}`. -/
def sourceChanges (v : JsonValue) : JsonValue :=
  match v.getField "changes" with
  | some c => if c.isRecord then c else .obj []
  | none => .obj []

/-- The `endAt` clause of `parseUpdateOperation`: accepted when a string or
an explicit `null`. -/
def asEndAtChange : Option JsonValue → Option (Option String)
  | some (.str s) => some (some s)
  | some .null => some none
  | _ => none

/-- The change-set assembled by `parseUpdateOperation` from the `changes`
record: each recognized, correctly-typed field is kept, all else dropped. -/
def buildUpdateChanges (src : JsonValue) : TaskChanges where
  title := asString (src.getField "title")
  content := asString (src.getField "content")
  taskTypeId := asString (src.getField "taskTypeId")
  projectId := asString (src.getField "projectId")
  status := asTaskStatus (src.getField "status")
  startAt := asString (src.getField "startAt")
  endAt := asEndAtChange (src.getField "endAt")
  isMajor := asBool (src.getField "isMajor")

/-- `parseUpdateOperation` (`scheduleAgent.ts` lines 214–256). -/
def parseUpdateOperation (v : JsonValue) : Option AgentUpdateTaskOperation :=
  if isActionRecord v "update_task" then
    match asString (v.getField "taskId") with
    | some taskId =>
      if (buildUpdateChanges (sourceChanges v)).isEmpty then none
      else some { taskId := taskId, changes := buildUpdateChanges (sourceChanges v) }
    | none => none
  else none

/-- `parseDeleteOperation` (`scheduleAgent.ts` lines 258–268). -/
def parseDeleteOperation (v : JsonValue) : Option AgentDeleteTaskOperation :=
  if isActionRecord v "delete_task" then
    match asString (v.getField "taskId") with
    | some taskId => some { taskId := taskId, reason := asString (v.getField "reason") }
    | none => none
  else none

/-- `parseProposal` (`scheduleAgent.ts` lines 270–305): parse each element
of `operations` with the three parsers in order, drop failures, reject the
proposal when no operation survives. -/
def parseProposal (value : Option JsonValue) : Option AgentProposal :=
  match value with
  | some v =>
    if v.isRecord then
      let operationsRaw := match v.getField "operations" with
        | some (.arr items) => items
        | _ => []
      let operations := operationsRaw.filterMap fun item =>
        match parseCreateOperation item with
        | some op => some (AgentOperation.create op)
        | none =>
          match parseUpdateOperation item with
          | some op => some (AgentOperation.update op)
          | none =>
            match parseDeleteOperation item with
            | some op => some (AgentOperation.delete op)
            | none => none
      if operations.isEmpty then none
      else some {
        summary := (asString (v.getField "summary")).getD "변경 제안"
        operations := operations
      }
    else none
  | none => none

/-! ### The domain records of `src/models.ts` -/

/-- `Task` from `src/models.ts` (optional fields are `Option`s;
`recurrenceIndex` is a non-negative integer index). -/
structure Task where
  id : String
  title : String
  content : String
  taskTypeId : String
  projectId : String
  status : TaskStatus
  startAt : String
  endAt : Option String
  isMajor : Bool
  createdAt : String
  updatedAt : String
  completedAt : Option String
  recurrencePattern : Option RecurrencePattern
  recurrenceGroupId : Option String
  recurrenceIndex : Option Nat
deriving DecidableEq, Repr

/-- `Project` from `src/models.ts`. -/
structure Project where
  id : String
  name : String
  color : String
  description : Option String
  isActive : Bool
  createdAt : String
  updatedAt : String
deriving DecidableEq, Repr

/-- `TaskType` from `src/models.ts`. -/
structure TaskType where
  id : String
  name : String
  color : String
  isDefault : Bool
  isActive : Bool
  order : Int
  createdAt : String
  updatedAt : String
deriving DecidableEq, Repr

/-! ### The conflict-map module: `toTimeRange`, `overlaps`,
`buildTaskConflictMap`. The JS `Record<string, Set<string>>` is an
association list whose sets are insertion-ordered duplicate-free lists. -/

/-- `TimeRange` with times in epoch milliseconds. -/
structure TimeRange where
  startMs : Int
  endMs : Int
deriving DecidableEq, Repr

/-- `toTimeRange`: `endAt` falls back to the start when absent or falsy
(the empty string), and the end is clamped to be at least the start.
`getTime` stands for `new Date(s).getTime()`; the `Number.isFinite` guard
only rejects NaN from unparseable dates, which total integer time has no
counterpart for. -/
def toTimeRange (getTime : String → Int) (startAt : String) (endAt : Option String) : TimeRange :=
  let start := getTime startAt
  let endRaw := match endAt with
    | some e => if e = "" then start else getTime e
    | none => start
  { startMs := start, endMs := max start endRaw }

/-- `overlaps`: inclusive-bounds interval intersection. -/
def overlaps (a b : TimeRange) : Bool :=
  a.startMs ≤ b.endMs && b.startMs ≤ a.endMs

/-- First-match lookup in the association-list map (object keys stay
unique here, so first match is the binding). -/
def lookupEntry : List (String × List String) → String → Option (List String)
  | [], _ => none
  | (k0, v0) :: rest, k => if k0 = k then some v0 else lookupEntry rest k

/-- The entry list under key `k`, empty when the key is absent. -/
def entryOf (m : List (String × List String)) (k : String) : List String :=
  (lookupEntry m k).getD []

/-- `conflictMap[k] = v`: overwrite the binding or append a new one. -/
def putEntry : List (String × List String) → String → List String → List (String × List String)
  | [], k, v => [(k, v)]
  | (k0, v0) :: rest, k, v =>
    if k0 = k then (k, v) :: rest else (k0, v0) :: putEntry rest k v

/-- `Set.add`: append if not yet present (JS sets keep insertion order). -/
def addToSet (l : List String) (x : String) : List String :=
  if x ∈ l then l else l ++ [x]

/-- `conflictMap[k]?.add(x)`: extend the entry at `k`, a no-op when the
key is absent (the optional chaining). -/
def addEdge : List (String × List String) → String → String → List (String × List String)
  | [], _, _ => []
  | (k0, v0) :: rest, k, x =>
    if k0 = k then (k0, addToSet v0 x) :: rest else (k0, v0) :: addEdge rest k x

/-- All index pairs `i < j` of a list, in the nested-loop iteration order
of `buildTaskConflictMap`. -/
def orderedPairs {α : Type} : List α → List (α × α)
  | [] => []
  | x :: xs => (xs.map fun y => (x, y)) ++ orderedPairs xs

/-- One inner-loop step of `buildTaskConflictMap`: record the conflict in
both directions when the ranges overlap. -/
def pairStep (getTime : String → Int) (m : List (String × List String)) (p : Task × Task) :
    List (String × List String) :=
  if overlaps (toTimeRange getTime p.1.startAt p.1.endAt) (toTimeRange getTime p.2.startAt p.2.endAt) then
    addEdge (addEdge m p.1.id p.2.id) p.2.id p.1.id
  else m

/-- `const activeTasks = tasks.filter((task) => task.status !== "DONE")`. -/
def activeTasks (tasks : List Task) : List Task :=
  tasks.filter fun t => !(t.status == TaskStatus.DONE)

/-- The first loop of `buildTaskConflictMap`: an empty set per active task. -/
def initConflictMap (ts : List Task) : List (String × List String) :=
  ts.foldl (fun m t => putEntry m t.id []) []

/-- `buildTaskConflictMap`: restrict to non-DONE tasks, give each an empty
entry, then walk every `i < j` pair; `Object.fromEntries` of the final
record is the association list itself. -/
def buildTaskConflictMap (getTime : String → Int) (tasks : List Task) :
    List (String × List String) :=
  (orderedPairs (activeTasks tasks)).foldl (pairStep getTime) (initConflictMap (activeTasks tasks))

/-! ### `llmClient.ts`: `readTextContent` and `requestLlmResponse` -/

/-- One element of a content-part array in `readTextContent`: a string is
kept, an object contributes its string `text` field, anything else
(`null`, booleans, numbers, nested arrays — all falsy or without a `text`
property) contributes the empty string. -/
def readTextPart : JsonValue → String
  | .str s => s
  | .obj fields =>
    match lookupField fields "text" with
    | some (.str t) => t
    | _ => ""
  | _ => ""

/-- `readTextContent` (`llmClient.ts` lines 20–53). The argument is the
already-resolved content value; JSON `null` and a missing value
(JS `undefined`) behave identically throughout, so both enter as `null`. -/
def readTextContent : JsonValue → String
  | .str s => s
  | .arr items =>
    String.intercalate "\n" ((items.map readTextPart).filter (fun s => !(s == "")))
  | .obj fields =>
    match lookupField fields "text" with
    | some (.str t) => t
    | _ =>
      match lookupField fields "content" with
      | some (.str c) => c
      | _ => ""
  | _ => ""

/-- Optional-chaining property access `o?.k`: short-circuits on nullish
(`undefined` = `none`, JSON `null`), otherwise plain property access
(which is `undefined` on primitives and missing keys). -/
def jsOptField : Option JsonValue → String → Option JsonValue
  | none, _ => none
  | some .null, _ => none
  | some v, k => v.getField k

/-- Optional-chaining index access `o?.[0]`. On a string, JS indexing
yields a one-character string, a primitive with no `message` property; at
this chain's sole use site that is indistinguishable from `undefined`, so
primitives map to `none`. -/
def jsOptIndex0 : Option JsonValue → Option JsonValue
  | some (.arr (x :: _)) => some x
  | some (.obj fields) => lookupField fields "0"
  | _ => none

/-- The nullish-coalescing operator `a ?? b` (right-associative in the
source chain). -/
def jsNullishOr (a b : Option JsonValue) : Option JsonValue :=
  match a with
  | none => b
  | some .null => b
  | some v => some v

/-- The content picked by `llmClient.ts` line 85:
`payload.choices?.[0]?.message?.content ?? payload.message?.content ?? payload.content`. -/
def extractedContent (payload : JsonValue) : Option JsonValue :=
  jsNullishOr
    (jsOptField (jsOptField (jsOptIndex0 (jsOptField (some payload) "choices")) "message") "content")
    (jsNullishOr (jsOptField (jsOptField (some payload) "message") "content")
      (payload.getField "content"))

/-- The assistant text extracted from a response payload. -/
def extractedText (payload : JsonValue) : String :=
  readTextContent ((extractedContent payload).getD .null)

/-- `body.slice(0, n)`, modelled at character granularity. -/
def sliceChars (s : String) (n : Nat) : String :=
  ⟨s.data.take n⟩

/-- JS `String.prototype.trim`, modelled on the character list (whitespace
stripped from both ends). -/
def jsTrim (s : String) : String :=
  ⟨(((s.data.dropWhile Char.isWhitespace).reverse.dropWhile Char.isWhitespace).reverse : List Char)⟩

/-- The `fetch` response as `requestLlmResponse` observes it: the success
flag and status code, the text body (read on failure) and the parsed JSON
body (read on success). -/
structure FetchResponse where
  ok : Bool
  status : Nat
  body : String
  json : JsonValue

/-- `requestLlmResponse` (`llmClient.ts` lines 55–92), from the transport
response on. Request construction (headers, model fallback) does not touch
the studied behavior. -/
def requestLlmResponse (resp : FetchResponse) : Except String String :=
  if !resp.ok then
    .error ("LLM 호출 실패 (" ++ toString resp.status ++ "): " ++ sliceChars resp.body 240)
  else
    if jsTrim (extractedText resp.json) = "" then
      .error "LLM 응답에서 텍스트를 찾지 못했습니다."
    else
      .ok (jsTrim (extractedText resp.json))

/-- Whether an `Except` result is the error case. -/
def exceptIsError (e : Except String String) : Bool :=
  match e with
  | .error _ => true
  | .ok _ => false

/-! ### Tool calls and `executeToolCall` (`scheduleAgent.ts` lines 164–185
and 307–418) -/

/-- `AgentToolName`, the five whitelisted tools. -/
inductive AgentToolName where
  | list_projects
  | list_task_types
  | search_tasks
  | get_task
  | current_datetime
deriving DecidableEq, Repr

/-- The `allowedTools.includes` membership test, as a decoder. -/
def toolNameOfString (s : String) : Option AgentToolName :=
  if s = "list_projects" then some .list_projects
  else if s = "list_task_types" then some .list_task_types
  else if s = "search_tasks" then some .search_tasks
  else if s = "get_task" then some .get_task
  else if s = "current_datetime" then some .current_datetime
  else none

/-- `AgentToolCall`; `args` is the raw JSON record. -/
structure AgentToolCall where
  tool : AgentToolName
  args : JsonValue

/-- `parseToolCalls` (`scheduleAgent.ts` lines 164–185): non-arrays give
`[]`; each element must be a record naming one of the five whitelisted
tools (others are dropped silently); non-record `args` default to `{}`. -/
def parseToolCalls (value : Option JsonValue) : List AgentToolCall :=
  match value with
  | some (.arr items) =>
    items.filterMap fun item =>
      if item.isRecord then
        match asString (item.getField "tool") with
        | some t =>
          match toolNameOfString t with
          | some tool =>
            some { tool := tool,
                   args := match item.getField "args" with
                     | some a => if a.isRecord then a else .obj []
                     | none => .obj [] }
          | none => none
        | none => none
      else none
  | _ => []

/-- The projection of a `Project` returned by `list_projects`. -/
structure ProjectSummary where
  id : String
  name : String
  isActive : Bool
deriving DecidableEq, Repr

/-- The projection of a `TaskType` returned by `list_task_types`. -/
structure TaskTypeSummary where
  id : String
  name : String
  isActive : Bool
deriving DecidableEq, Repr

/-- The projection of a `Task` returned by `get_task`. -/
structure TaskDetail where
  id : String
  title : String
  content : String
  status : TaskStatus
  startAt : String
  endAt : Option String
  taskTypeId : String
  projectId : String
  isMajor : Bool
  updatedAt : String
deriving DecidableEq, Repr

/-- One row returned by `search_tasks`. -/
structure SearchResultItem where
  id : String
  title : String
  status : TaskStatus
  startAt : String
  endAt : Option String
  projectId : String
  projectName : String
  taskTypeId : String
  taskTypeName : String
  isMajor : Bool
  updatedAt : String
deriving DecidableEq, Repr

/-- The `result` payload of a tool execution (the JSON shapes the five
branches of `executeToolCall` produce). -/
inductive ToolResultPayload where
  | projects (items : List ProjectSummary)
  | taskTypes (items : List TaskTypeSummary)
  | datetime (now : String)
  | task (item : TaskDetail)
  | message (text : String)
  | searchResults (items : List SearchResultItem)
deriving DecidableEq, Repr

/-- `ToolExecutionResult`. -/
structure ToolExecutionResult where
  tool : AgentToolName
  args : JsonValue
  ok : Bool
  result : ToolResultPayload

/-- JS `String.prototype.toLowerCase`, modelled per character. -/
def jsToLower (s : String) : String :=
  ⟨s.data.map Char.toLower⟩

/-- JS `String.prototype.includes`: substring containment. -/
def jsIncludes (haystack keyword : String) : Bool :=
  decide (keyword.data <:+: haystack.data)

/-- `Object.fromEntries(list.map(x => [key x, x]))[k]`: the last entry
with the key wins. -/
def lastAssoc {α : Type} (key : α → String) : List α → String → Option α
  | [], _ => none
  | x :: rest, k =>
    match lastAssoc key rest k with
    | some r => some r
    | none => if key x = k then some x else none

/-- `projectMap[task.projectId]?.name ?? ""`. -/
def projectNameOf (projects : List Project) (pid : String) : String :=
  match lastAssoc Project.id projects pid with
  | some p => p.name
  | none => ""

/-- `taskTypeMap[task.taskTypeId]?.name ?? ""`. -/
def taskTypeNameOf (taskTypes : List TaskType) (tid : String) : String :=
  match lastAssoc TaskType.id taskTypes tid with
  | some t => t.name
  | none => ""

/-- The normalized `keyword` argument of `search_tasks`:
`typeof keyword === "string" ? keyword.trim().toLowerCase() : ""`. -/
def searchKeyword (args : JsonValue) : String :=
  match asString (args.getField "keyword") with
  | some s => jsToLower (jsTrim s)
  | none => ""

/-- The `limit` of `search_tasks`:
`Math.max(1, Math.min(50, Math.floor(limitRaw)))` with `limitRaw`
defaulting to `20` for absent or non-numeric input. -/
def searchLimit (args : JsonValue) : Int :=
  max 1 (min 50 (((asNum (args.getField "limit")).getD 20).floor))

/-- The haystack of the keyword match:
```${title} ${content} ${projectName} ${taskTypeName}`.toLowerCase()``. -/
def searchHaystack (projects : List Project) (taskTypes : List TaskType) (t : Task) : String :=
  jsToLower (t.title ++ " " ++ t.content ++ " " ++ projectNameOf projects t.projectId
    ++ " " ++ taskTypeNameOf taskTypes t.taskTypeId)

/-- The filter predicate of `search_tasks`, in the early-return shape of
the source. -/
def searchMatches (projects : List Project) (taskTypes : List TaskType) (args : JsonValue)
    (t : Task) : Bool :=
  let projectId := (asString (args.getField "projectId")).getD ""
  let status := asTaskStatus (args.getField "status")
  let keyword := searchKeyword args
  if projectId != "" && t.projectId != projectId then false
  else if (match status with | some s => t.status != s | none => false) then false
  else if keyword == "" then true
  else jsIncludes (searchHaystack projects taskTypes t) keyword

/-- The row projection of `search_tasks`. -/
def toSearchItem (projects : List Project) (taskTypes : List TaskType) (t : Task) :
    SearchResultItem where
  id := t.id
  title := t.title
  status := t.status
  startAt := t.startAt
  endAt := t.endAt
  projectId := t.projectId
  projectName := projectNameOf projects t.projectId
  taskTypeId := t.taskTypeId
  taskTypeName := taskTypeNameOf taskTypes t.taskTypeId
  isMajor := t.isMajor
  updatedAt := t.updatedAt

/-- The tasks passing the `search_tasks` filters, in store order. -/
def searchFiltered (projects : List Project) (taskTypes : List TaskType)
    (tasks : List Task) (args : JsonValue) : List Task :=
  tasks.filter (searchMatches projects taskTypes args)

/-- The full `search_tasks` pipeline: filter, stable-sort by most recent
`updatedAt` first (the numeric comparator `timeB - timeA`), truncate to
the clamped limit, project each row. -/
def searchResults (getTime : String → Int) (tasks : List Task) (projects : List Project)
    (taskTypes : List TaskType) (args : JsonValue) : List SearchResultItem :=
  ((searchFiltered projects taskTypes tasks args).mergeSort
      (fun a b => decide (getTime b.updatedAt ≤ getTime a.updatedAt))).take
    (searchLimit args).toNat |>.map (toSearchItem projects taskTypes)

/-- The projection of a task returned by `get_task`. -/
def toTaskDetail (t : Task) : TaskDetail where
  id := t.id
  title := t.title
  content := t.content
  status := t.status
  startAt := t.startAt
  endAt := t.endAt
  taskTypeId := t.taskTypeId
  projectId := t.projectId
  isMajor := t.isMajor
  updatedAt := t.updatedAt

/-- `executeToolCall` (`scheduleAgent.ts` lines 307–418). `getTime` stands
for `new Date(s).getTime()` and `nowIso` for `toIsoNow()`. -/
def executeToolCall (getTime : String → Int) (nowIso : String) (tasks : List Task)
    (projects : List Project) (taskTypes : List TaskType) (call : AgentToolCall) :
    ToolExecutionResult :=
  match call.tool with
  | .list_projects =>
    { tool := call.tool, args := call.args, ok := true,
      result := .projects (projects.map fun p => { id := p.id, name := p.name, isActive := p.isActive }) }
  | .list_task_types =>
    { tool := call.tool, args := call.args, ok := true,
      result := .taskTypes (taskTypes.map fun tt => { id := tt.id, name := tt.name, isActive := tt.isActive }) }
  | .current_datetime =>
    { tool := call.tool, args := call.args, ok := true, result := .datetime nowIso }
  | .get_task =>
    let taskId := (asString (call.args.getField "taskId")).getD ""
    match tasks.find? (fun t => t.id == taskId) with
    | some t =>
      { tool := call.tool, args := call.args, ok := true, result := .task (toTaskDetail t) }
    | none =>
      { tool := call.tool, args := call.args, ok := false,
        result := .message "일정을 찾지 못했습니다." }
  | .search_tasks =>
    { tool := .search_tasks, args := call.args, ok := true,
      result := .searchResults (searchResults getTime tasks projects taskTypes call.args) }

/-- Claim C8's filter wording: the optional project and status filters and
the case-insensitive keyword substring match, as one conjunction. -/
def claimSearchMatch (projects : List Project) (taskTypes : List TaskType) (args : JsonValue)
    (t : Task) : Bool :=
  let projectId := (asString (args.getField "projectId")).getD ""
  let status := asTaskStatus (args.getField "status")
  let keyword := searchKeyword args
  (projectId == "" || t.projectId == projectId)
    && (match status with | some s => t.status == s | none => true)
    && (keyword == "" || jsIncludes (searchHaystack projects taskTypes t) keyword)

/-! ### The bounded agent loop (`runScheduleAgent`, lines 450–488) -/

/-- `MAX_TOOL_ROUNDS`. -/
def MAX_TOOL_ROUNDS : Nat := 4

/-- `RunScheduleAgentResult`. -/
structure RunScheduleAgentResult where
  assistantMessage : String
  needsUserInput : Bool
  question : Option String
  proposal : Option AgentProposal
deriving DecidableEq, Repr

/-- The two fatal errors the loop can throw: a non-object model payload
(`parseModelPayload`) and round-budget exhaustion (the final `throw`). -/
inductive AgentError where
  | notJsonObject
  | noFinalProposal
deriving DecidableEq, Repr

/-- The agent loop environment: the domain snapshot captured at run start
and the modelled date collaborators. -/
structure AgentEnv where
  tasks : List Task
  projects : List Project
  taskTypes : List TaskType
  getTime : String → Int
  nowIso : String

/-- JS `Boolean(x)` on a possibly-missing JSON value. -/
def jsTruthy : Option JsonValue → Bool
  | none => false
  | some .null => false
  | some (.bool b) => b
  | some (.num q) => !(q == 0)
  | some (.str s) => !(s == "")
  | some (.arr _) => true
  | some (.obj _) => true

/-- The two fallback assistant messages of lines 474–476. -/
def defaultAssistantMessage (proposal : Option AgentProposal) : String :=
  match proposal with
  | some _ => "요청 내용을 바탕으로 변경안을 준비했습니다. 내용을 확인해 주세요."
  | none => "요청 내용을 해석했습니다."

/-- Lines 470–484: the final result built from the payload of a round that
requested no tool calls. A string `assistantMessage` with truthy trim is
kept verbatim, otherwise a default depending on the proposal's presence. -/
def finalizeRound (payload : JsonValue) : RunScheduleAgentResult :=
  { assistantMessage :=
      match asString (payload.getField "assistantMessage") with
      | some s =>
        if jsTrim s = "" then defaultAssistantMessage (parseProposal (payload.getField "proposal"))
        else s
      | none => defaultAssistantMessage (parseProposal (payload.getField "proposal"))
    needsUserInput := jsTruthy (payload.getField "needsUserInput")
    question := asString (payload.getField "userQuestion")
    proposal := parseProposal (payload.getField "proposal") }

/-- The loop of `runScheduleAgent`, by remaining-round count. The model
transport plus `parseModelPayload` is `responses i acc`: the parsed JSON
value of the `i`-th transport call, a function of the accumulated tool
results that make up the prompt (string-level JSON extraction is outside
this model). The second component counts transport calls issued.
`parseToolCalls(...).slice(0, 4)` caps the calls executed per round. -/
def runAgentRounds (env : AgentEnv) (responses : Nat → List ToolExecutionResult → JsonValue) :
    Nat → Nat → List ToolExecutionResult → (Except AgentError RunScheduleAgentResult × Nat)
  | 0, calls, _ => (.error .noFinalProposal, calls)
  | fuel + 1, calls, acc =>
    if (responses calls acc).isRecord then
      if ((parseToolCalls ((responses calls acc).getField "toolCalls")).take 4).isEmpty then
        (.ok (finalizeRound (responses calls acc)), calls + 1)
      else
        runAgentRounds env responses fuel (calls + 1)
          (acc ++ ((parseToolCalls ((responses calls acc).getField "toolCalls")).take 4).map
            (executeToolCall env.getTime env.nowIso env.tasks env.projects env.taskTypes))
    else
      (.error .notJsonObject, calls + 1)

/-- `runScheduleAgent`: up to `MAX_TOOL_ROUNDS` rounds starting from an
empty accumulator, throwing `noFinalProposal` when the budget runs out. -/
def runScheduleAgent (env : AgentEnv) (responses : Nat → List ToolExecutionResult → JsonValue) :
    Except AgentError RunScheduleAgentResult × Nat :=
  runAgentRounds env responses MAX_TOOL_ROUNDS 0 []

/-- Replace the transport's answer for call index `j`. -/
def updateResponse (responses : Nat → List ToolExecutionResult → JsonValue) (j : Nat)
    (p : JsonValue) : Nat → List ToolExecutionResult → JsonValue :=
  fun i acc => if i = j then p else responses i acc

/-! ### The proposal applier (`handleApplyProposal`, `constants.ts`
lines 448–530). The three per-operation apply functions go through the
persistence collaborator, so one abstract state transformer
`applyOp : AgentOperation → σ → Except String σ` stands for
`applyCreateOperation` / `applyUpdateOperation` / `applyDeleteOperation`
dispatched on the action tag; a thrown error is the `Except.error` case. -/

/-- The outcome of `handleApplyProposal`: the guard's early return when no
operation is selected, or the applied batch with the final collaborator
state, the attempted and failed index lists (in attempt order) and the
residual proposal (`none` when the proposal was cleared). -/
inductive ApplyResult (σ : Type) where
  | noSelection
  | applied (state : σ) (attempted failed : List Nat) (residual : Option AgentProposal)
deriving DecidableEq

/-- The `for (const index of indexesToApply)` loop: look the operation up
(`continue` when absent), try to apply it, catch a failure by recording
the index — never aborting the remaining iterations. -/
def applyLoop {σ : Type} (applyOp : AgentOperation → σ → Except String σ)
    (ops : List AgentOperation) :
    List Nat → σ → List Nat → List Nat → (σ × List Nat × List Nat)
  | [], st, attempted, failed => (st, attempted, failed)
  | idx :: rest, st, attempted, failed =>
    match ops[idx]? with
    | none => applyLoop applyOp ops rest st attempted failed
    | some op =>
      match applyOp op st with
      | .ok st2 => applyLoop applyOp ops rest st2 (attempted ++ [idx]) failed
      | .error _ => applyLoop applyOp ops rest st (attempted ++ [idx]) (failed ++ [idx])

/-- `handleApplyProposal`: the selected indices in list order, the
apply loop, then the residual proposal built from the operations that are
unselected or selected-and-failed; cleared entirely when that set is
empty. (`!pendingProposal || isApplying` is modelled by the caller holding
a proposal and not re-entering.) -/
def handleApplyProposal {σ : Type} (applyOp : AgentOperation → σ → Except String σ)
    (proposal : AgentProposal) (selected : Nat → Bool) (st : σ) : ApplyResult σ :=
  if ((List.range proposal.operations.length).filter selected).isEmpty then .noSelection
  else
    match applyLoop applyOp proposal.operations
        ((List.range proposal.operations.length).filter selected) st [] [] with
    | (st2, attempted, failed) =>
      let remaining := (proposal.operations.enum.filter (fun p =>
          if selected p.1 then failed.contains p.1 else true)).map Prod.snd
      if remaining.isEmpty then .applied st2 attempted failed none
      else .applied st2 attempted failed
        (some { summary := "남은 변경안 " ++ toString remaining.length ++ "건",
                operations := remaining })

/-- Claim C3's residual set, as worded: the failed still-selected
operations plus the unselected ones, in original order. -/
def residualOperations (ops : List AgentOperation) (selected : Nat → Bool)
    (failed : List Nat) : List AgentOperation :=
  (ops.enum.filter (fun p => (selected p.1 && failed.contains p.1) || !selected p.1)).map Prod.snd

/-! ### The task store (`AppDataContext.tsx`): `pushUndo`, `createTask`,
`updateTask`, `removeTask`, `undoLastChange`. The Dexie table keyed by id
is a task list observed through id lookup; `toIsoNow()` is the string
parameter `now`; `Date.now()` and parsed entry timestamps are epoch
milliseconds (`nowMs`, `createdAtMs`); `getId` and the `Date` shifting of
recurring instances are the parameters `freshIds`, `groupId`,
`shiftDate`. -/

/-- `TaskFormInput` from `src/models.ts`. -/
structure TaskFormInput where
  title : String
  content : String
  taskTypeId : String
  projectId : String
  status : TaskStatus
  startAt : String
  endAt : Option String
  isMajor : Bool
  recurrencePattern : Option RecurrencePattern
  recurrenceCount : Option Int
deriving DecidableEq, Repr

/-- `UndoEntry`; `createdAtMs` is the entry's `createdAt` instant in epoch
milliseconds (the source stores an ISO string and compares its parsed
time in the merge window check). -/
inductive UndoEntry where
  | delete_tasks (createdAtMs : Int) (description : String) (taskIds : List String)
  | upsert_tasks (createdAtMs : Int) (description : String) (tasks : List Task)
deriving DecidableEq, Repr

def MAX_UNDO_STACK : Nat := 80

def UPDATE_UNDO_MERGE_WINDOW_MS : Int := 15000

/-- `db.tasks.get(id)`: lookup by primary key. -/
def dbGet (store : List Task) (id : String) : Option Task :=
  store.find? (fun t => t.id == id)

/-- `db.tasks.put(x)`: replace the record with the same key, else insert. -/
def dbPut (store : List Task) (x : Task) : List Task :=
  if store.any (fun t => t.id == x.id) then
    store.map (fun t => if t.id == x.id then x else t)
  else store ++ [x]

/-- `db.tasks.bulkPut(xs)`. -/
def dbBulkPut (store : List Task) (xs : List Task) : List Task :=
  xs.foldl dbPut store

/-- `db.tasks.bulkAdd(xs)` (all keys fresh — freshness is a hypothesis of
the theorems that use it). -/
def dbBulkAdd (store : List Task) (xs : List Task) : List Task :=
  store ++ xs

/-- `db.tasks.delete(id)`. -/
def dbDelete (store : List Task) (id : String) : List Task :=
  store.filter (fun t => !(t.id == id))

/-- `db.tasks.bulkDelete(ids)`. -/
def dbBulkDelete (store : List Task) (ids : List String) : List Task :=
  store.filter (fun t => !(ids.contains t.id))

/-- The provider state: the live table and the in-memory undo stack. -/
structure DbState where
  tasks : List Task
  undoStack : List UndoEntry
deriving DecidableEq, Repr

/-- `trimTaskInput`. -/
def trimTaskInput (input : TaskFormInput) : TaskFormInput :=
  { input with title := jsTrim input.title, content := jsTrim input.content }

/-- `clampRecurrenceCount`: `1` when not a finite number, else clamped
into `[1, 60]` (integer model, so `Math.floor` is the identity). -/
def clampRecurrenceCount : Option Int → Int
  | none => 1
  | some v => max 1 (min 60 v)

/-- `shiftIsoByPattern`: identity for step 0 or no pattern, otherwise the
`Date` arithmetic abstracted as `shiftDate`. -/
def shiftIsoByPattern (shiftDate : String → RecurrencePattern → Nat → String)
    (iso : String) (pattern : RecurrencePattern) (step : Nat) : String :=
  if step = 0 ∨ pattern = .NONE then iso else shiftDate iso pattern step

/-- The push-and-trim tail of `pushUndo`: append the entry, and when the
stack exceeds `MAX_UNDO_STACK` keep only its most recent entries. -/
def pushTrim (stack : List UndoEntry) (entry : UndoEntry) : List UndoEntry :=
  if (stack ++ [entry]).length > MAX_UNDO_STACK then
    (stack ++ [entry]).drop ((stack ++ [entry]).length - MAX_UNDO_STACK)
  else stack ++ [entry]

/-- The `entry.kind === "upsert_tasks" && entry.tasks.length === 1` test,
as a decoder to the entry's timestamp and single task. -/
def singleUpsertTask : UndoEntry → Option (Int × Task)
  | .delete_tasks _ _ _ => none
  | .upsert_tasks ms _ ts =>
    match ts with
    | [t] => some (ms, t)
    | _ => none

/-- The merge condition of `pushUndo`: the pushed entry and the top of the
stack are both single-task upserts of the same task, and the top entry was
created within the merge window. -/
def isMergeableEntry (nowMs : Int) (entry : UndoEntry) (last : Option UndoEntry) : Bool :=
  match singleUpsertTask entry, last.bind singleUpsertTask with
  | some (_, t), some (lastMs, lt) =>
    decide (lt.id = t.id) && decide (nowMs - lastMs < UPDATE_UNDO_MERGE_WINDOW_MS)
  | _, _ => false

/-- `pushUndo` (lines 463–485): a single-task upsert entry is merged away
(not pushed) when the top entry is a single-task upsert of the same task
created within the last 15 seconds; otherwise push and trim the stack to
its last `MAX_UNDO_STACK` entries. -/
def pushUndo (nowMs : Int) (entry : UndoEntry) (stack : List UndoEntry) : List UndoEntry :=
  if isMergeableEntry nowMs entry stack.getLast? then stack else pushTrim stack entry

/-- `input.endAt || undefined`: the empty string collapses to absent. -/
def normalizeEndAt : Option String → Option String
  | some e => if e = "" then none else some e
  | none => none

/-- The records built by `createTask`'s `Array.from`: instance `index` has
its start (and end, when present) shifted by the effective pattern and
carries the shared recurrence group id. -/
def createRecords (shiftDate : String → RecurrencePattern → Nat → String) (now : String)
    (freshIds : Nat → String) (groupId : String) (input : TaskFormInput) : List Task :=
  let normalized := trimTaskInput input
  let recurrencePattern := normalized.recurrencePattern.getD .NONE
  let recurrenceCount : Nat :=
    if recurrencePattern = .NONE then 1 else (clampRecurrenceCount normalized.recurrenceCount).toNat
  let effectivePattern : RecurrencePattern :=
    if recurrenceCount > 1 then recurrencePattern else .NONE
  (List.range recurrenceCount).map fun index =>
    { id := freshIds index
      title := normalized.title
      content := normalized.content
      taskTypeId := normalized.taskTypeId
      projectId := normalized.projectId
      status := normalized.status
      startAt := shiftIsoByPattern shiftDate normalized.startAt effectivePattern index
      endAt := match normalizeEndAt normalized.endAt with
        | some e => some (shiftIsoByPattern shiftDate e effectivePattern index)
        | none => none
      isMajor := normalized.isMajor
      createdAt := now
      updatedAt := now
      completedAt := if normalized.status = .DONE then some now else none
      recurrencePattern := some effectivePattern
      recurrenceGroupId := if effectivePattern = .NONE then none else some groupId
      recurrenceIndex := if effectivePattern = .NONE then none else some index }

/-- The `description` of `createTask`'s undo entry. -/
def createDescription (input : TaskFormInput) (count : Nat) : String :=
  if count > 1 then "반복 일정 " ++ toString count ++ "건 추가"
  else "일정 추가: " ++ jsTrim input.title

/-- `createTask` (lines 487–529): add the whole batch, then push one
`delete_tasks` entry covering every created id. -/
def createTask (shiftDate : String → RecurrencePattern → Nat → String) (now : String)
    (nowMs : Int) (freshIds : Nat → String) (groupId : String) (input : TaskFormInput)
    (st : DbState) : DbState :=
  let records := createRecords shiftDate now freshIds groupId input
  { tasks := dbBulkAdd st.tasks records
    undoStack := pushUndo nowMs
      (.delete_tasks nowMs (createDescription input records.length) (records.map Task.id))
      st.undoStack }

/-- The `nextTask` of `updateTask`: `{ ...existing,
...toTaskCoreRecord(normalized) }` with recurrence fields kept from the
existing record, `completedAt` maintained for DONE and cleared otherwise,
and `updatedAt` bumped. (`toTaskCoreRecord` trims the already-trimmed
input once more.) -/
def mkNextTask (now : String) (existing : Task) (input : TaskFormInput) : Task :=
  let normalized := trimTaskInput input
  { existing with
    title := jsTrim normalized.title
    content := jsTrim normalized.content
    taskTypeId := normalized.taskTypeId
    projectId := normalized.projectId
    status := normalized.status
    startAt := normalized.startAt
    endAt := normalizeEndAt normalized.endAt
    isMajor := normalized.isMajor
    completedAt := if normalized.status = .DONE then
        (match existing.completedAt with
          | some c => some c
          | none => some now)
      else none
    recurrencePattern := existing.recurrencePattern
    recurrenceGroupId := existing.recurrenceGroupId
    recurrenceIndex := existing.recurrenceIndex
    updatedAt := now }

/-- The nine fields `serializeTaskForEquality` serializes. -/
structure TaskEqualityKey where
  title : String
  content : String
  taskTypeId : String
  projectId : String
  status : TaskStatus
  startAt : String
  endAt : String
  isMajor : Bool
  recurrencePattern : RecurrencePattern
deriving DecidableEq, Repr

/-- `serializeTaskForEquality` (lines 287–299): `JSON.stringify` of the
fixed-shape nine-field object is injective in the field values, so the
string comparison is this record's equality. -/
def serializeTaskForEquality (t : Task) : TaskEqualityKey where
  title := t.title
  content := t.content
  taskTypeId := t.taskTypeId
  projectId := t.projectId
  status := t.status
  startAt := t.startAt
  endAt := t.endAt.getD ""
  isMajor := t.isMajor
  recurrencePattern := t.recurrencePattern.getD .NONE

/-- `updateTask` (lines 531–564): no-op when the id is absent or the
serialized next record equals the serialized existing one; otherwise put
the next record and push an `upsert_tasks` entry with the prior snapshot. -/
def updateTask (now : String) (nowMs : Int) (id : String) (input : TaskFormInput)
    (st : DbState) : DbState :=
  match dbGet st.tasks id with
  | none => st
  | some existing =>
    if serializeTaskForEquality existing = serializeTaskForEquality (mkNextTask now existing input) then
      st
    else
      { tasks := dbPut st.tasks (mkNextTask now existing input)
        undoStack := pushUndo nowMs
          (.upsert_tasks nowMs ("일정 수정: " ++ existing.title) [existing]) st.undoStack }

/-- `removeTask` (lines 566–583). -/
def removeTask (nowMs : Int) (id : String) (st : DbState) : DbState :=
  match dbGet st.tasks id with
  | none => st
  | some existing =>
    { tasks := dbDelete st.tasks id
      undoStack := pushUndo nowMs
        (.upsert_tasks nowMs ("일정 삭제: " ++ existing.title) [existing]) st.undoStack }

/-- `undoLastChange` (lines 585–606): pop the most recent entry and apply
its inverse; a no-op on an empty stack. -/
def undoLastChange (st : DbState) : DbState :=
  match st.undoStack.getLast? with
  | none => st
  | some (.delete_tasks _ _ taskIds) =>
    { tasks := dbBulkDelete st.tasks taskIds, undoStack := st.undoStack.dropLast }
  | some (.upsert_tasks _ _ ts) =>
    { tasks := dbBulkPut st.tasks ts, undoStack := st.undoStack.dropLast }

/-- The condition under which `pushUndo` actually pushes a single-task
upsert entry for `taskId` instead of merging it away: the current top of
the stack is not a single-task upsert of the same task from within the
merge window. -/
def NoUndoMerge (stack : List UndoEntry) (taskId : String) (nowMs : Int) : Prop :=
  ∀ lastMs d lt, stack.getLast? = some (.upsert_tasks lastMs d [lt]) → lt.id = taskId →
    UPDATE_UNDO_MERGE_WINDOW_MS ≤ nowMs - lastMs

/-! ### Spec-side predicates (worded from the claims, to compare with the parsers) -/

/-- "carries field `k` as text": the field is present with a string value. -/
def hasTextField (v : JsonValue) (k : String) : Bool :=
  (asString (v.getField k)).isSome

/-- Claim C1's acceptance condition, as worded: a non-empty title and a
task-type id, project id and start timestamp, all as text. -/
def claimCreateAccepts (v : JsonValue) : Bool :=
  (match asString (v.getField "title") with
    | some t => !(t == "")
    | none => false)
    && hasTextField v "taskTypeId" && hasTextField v "projectId" && hasTextField v "startAt"

/-- Claim C6's "change-set contains at least one recognized, correctly-typed
field" over the raw `changes` record: one of the eight known fields is
present with the right type (status one of the three valid values, end
time a string or an explicit `null`). -/
def claimUpdateHasRecognizedChange (src : JsonValue) : Bool :=
  hasTextField src "title" || hasTextField src "content" ||
    hasTextField src "taskTypeId" || hasTextField src "projectId" ||
    (asTaskStatus (src.getField "status")).isSome || hasTextField src "startAt" ||
    (asEndAtChange (src.getField "endAt")).isSome || (asBool (src.getField "isMajor")).isSome

/-! ### Concrete payloads for witnesses and counterexamples -/

/-- A minimal `create_task` payload: exactly the four required fields. -/
def minimalCreatePayload : JsonValue :=
  .obj [("action", .str "create_task"), ("title", .str "보고서 작성"),
    ("taskTypeId", .str "type-write"), ("projectId", .str "project-general"),
    ("startAt", .str "2026-02-11T09:00:00.000Z")]

/-- The same payload with an empty (but present) `title` string. -/
def emptyTitleCreatePayload : JsonValue :=
  .obj [("action", .str "create_task"), ("title", .str ""),
    ("taskTypeId", .str "type-write"), ("projectId", .str "project-general"),
    ("startAt", .str "2026-02-11T09:00:00.000Z")]

/-- The operation `parseCreateOperation` yields on `minimalCreatePayload`. -/
def minimalCreateOp : AgentCreateTaskOperation where
  title := "보고서 작성"
  content := ""
  taskTypeId := "type-write"
  projectId := "project-general"
  status := .NOT_DONE
  startAt := "2026-02-11T09:00:00.000Z"
  endAt := none
  isMajor := false

/-- An `update_task` payload whose change-set carries one recognized field
(`status`) next to an unrecognized one. -/
def sampleUpdatePayload : JsonValue :=
  .obj [("action", .str "update_task"), ("taskId", .str "task-1"),
    ("changes", .obj [("status", .str "DONE"), ("note", .num 3)])]

/-- The operation `parseUpdateOperation` yields on `sampleUpdatePayload`. -/
def sampleUpdateChanges : TaskChanges :=
  { title := none
    content := none
    taskTypeId := none
    projectId := none
    status := some .DONE
    startAt := none
    endAt := none
    isMajor := none }

def sampleUpdateOp : AgentUpdateTaskOperation :=
  { taskId := "task-1"
    changes := sampleUpdateChanges }

/-- A failed transport response. -/
def sampleErrorResponse : FetchResponse :=
  { ok := false, status := 500, body := "internal error", json := .null }

/-- A successful transport response in the OpenAI `choices` shape, with
padding whitespace around the assistant text. -/
def sampleOkResponse : FetchResponse :=
  { ok := true, status := 200, body := ""
    json := .obj [("choices", .arr [.obj [("message", .obj [("content", .str " hello ")])]])] }

/-- Two non-DONE tasks that share the id `"x"` and overlap in time. -/
def dupTaskA : Task :=
  { id := "x", title := "a", content := "", taskTypeId := "t", projectId := "p",
    status := .NOT_DONE, startAt := "s", endAt := none, isMajor := false,
    createdAt := "c", updatedAt := "u", completedAt := none,
    recurrencePattern := none, recurrenceGroupId := none, recurrenceIndex := none }

def dupTaskB : Task :=
  { dupTaskA with title := "b" }

/-- Two overlapping tasks with distinct ids `"a"` / `"b"`. -/
def conflictTaskA : Task :=
  { dupTaskA with id := "a" }

def conflictTaskB : Task :=
  { dupTaskA with id := "b", title := "b" }

/-- Sample `search_tasks` arguments: a keyword and an explicit limit. -/
def searchArgsSample : JsonValue :=
  .obj [("keyword", .str "회의"), ("limit", .num 5)]

/-- A task whose title matches the sample keyword. -/
def searchTaskA : Task :=
  { dupTaskA with id := "s1", title := "주간 회의" }

/-- A task that does not match the sample keyword. -/
def searchTaskB : Task :=
  { dupTaskA with id := "s2", title := "출장" }

/-- A state transformer standing for the three apply functions: creates
and updates succeed (bumping a counter state), deletes fail. -/
def applyOpSample : AgentOperation → Nat → Except String Nat := fun op s =>
  match op with
  | .delete _ => .error "삭제 실패"
  | _ => .ok (s + 1)

/-- A two-operation proposal whose second operation will fail under
`applyOpSample`. -/
def sampleProposal : AgentProposal :=
  { summary := "제안", operations := [.create minimalCreateOp, .delete { taskId := "t", reason := none }] }

/-- A closed agent environment with an empty domain snapshot. -/
def loopEnv : AgentEnv :=
  { tasks := [], projects := [], taskTypes := [], getTime := fun _ => 0,
    nowIso := "2026-02-11T00:00:00.000Z" }

/-- A payload that only requests a whitelisted tool call. -/
def toolOnlyPayload : JsonValue :=
  .obj [("toolCalls", .arr [.obj [("tool", .str "current_datetime")]])]

/-- A payload carrying both a whitelisted tool call and a parseable
proposal. -/
def toolAndProposalPayload : JsonValue :=
  .obj [("toolCalls", .arr [.obj [("tool", .str "current_datetime")]]),
    ("proposal", .obj [("summary", .str "변경"), ("operations", .arr [minimalCreatePayload])])]

/-- A payload with no tool calls and a parseable proposal. -/
def proposalOnlyPayload : JsonValue :=
  .obj [("assistantMessage", .str "완료했습니다"),
    ("proposal", .obj [("operations", .arr [minimalCreatePayload])])]

/-- Transports that return the same payload on every call. -/
def toolOnlyResponses : Nat → List ToolExecutionResult → JsonValue :=
  fun _ _ => toolOnlyPayload

def bothResponses : Nat → List ToolExecutionResult → JsonValue :=
  fun _ _ => toolAndProposalPayload

def proposalOnlyResponses : Nat → List ToolExecutionResult → JsonValue :=
  fun _ _ => proposalOnlyPayload

/-- A stored task with id `"a"`. -/
def bTask : Task :=
  { dupTaskA with id := "a", title := "보고" }

/-- A store holding `bTask` with an empty undo stack. -/
def st0 : DbState :=
  { tasks := [bTask], undoStack := [] }

/-- A form input that creates one task (no recurrence). -/
def createInput : TaskFormInput :=
  { title := "회의", content := "", taskTypeId := "t", projectId := "p",
    status := .NOT_DONE, startAt := "s", endAt := none, isMajor := false,
    recurrencePattern := none, recurrenceCount := none }

/-- A form input that renames `bTask`. -/
def updInput : TaskFormInput :=
  { createInput with title := "새 제목" }

/-- A form input equal to `bTask`'s stored fields after trimming. -/
def noopInput : TaskFormInput :=
  { createInput with title := " 보고 " }

/-- The merge-window counterexample: an older snapshot of task `"a"` on
the stack, a newer value in the store. -/
def cxTaskS0 : Task :=
  { dupTaskA with id := "a", title := "v0" }

def cxTaskS1 : Task :=
  { dupTaskA with id := "a", title := "v1" }

def cxInput : TaskFormInput :=
  { createInput with title := "v2" }

def cxState : DbState :=
  { tasks := [cxTaskS1], undoStack := [.upsert_tasks 1000 "일정 수정: v?" [cxTaskS0]] }

/-! ## Theorems -/

/-- Helper: the loop's result only depends on the transport's answers for
the call indices the remaining rounds can issue. -/
theorem runAgentRounds_agree (env : AgentEnv)
    (r1 r2 : Nat → List ToolExecutionResult → JsonValue) :
    ∀ fuel calls acc,
      (∀ i acc2, calls ≤ i → i < calls + fuel → r1 i acc2 = r2 i acc2) →
      runAgentRounds env r1 fuel calls acc = runAgentRounds env r2 fuel calls acc := by
  intro fuel
  induction fuel with
  | zero => intro calls acc _; rfl
  | succ fuel ih =>
    intro calls acc h
    have hEq : r1 calls acc = r2 calls acc := h calls acc (le_refl _) (by omega)
    simp only [runAgentRounds, hEq]
    by_cases hrec : (r2 calls acc).isRecord = true
    · simp only [hrec, if_true]
      by_cases hemp : ((parseToolCalls ((r2 calls acc).getField "toolCalls")).take 4).isEmpty = true
      · simp [hemp]
      · simp only [Bool.not_eq_true] at hemp
        simp only [hemp, Bool.false_eq_true, if_false]
        exact ih (calls + 1) _ (fun i acc2 hle hlt => h i acc2 (by omega) (by omega))
    · simp only [Bool.not_eq_true] at hrec
      simp [hrec]

/-- Helper: while every reachable round keeps requesting tool calls, the
loop burns its entire remaining budget and throws. -/
theorem runAgentRounds_exhaust (env : AgentEnv)
    (responses : Nat → List ToolExecutionResult → JsonValue) :
    ∀ fuel calls acc,
      (∀ i acc2, calls ≤ i → i < calls + fuel →
        (responses i acc2).isRecord = true
          ∧ (parseToolCalls ((responses i acc2).getField "toolCalls")).isEmpty = false) →
      runAgentRounds env responses fuel calls acc = (.error .noFinalProposal, calls + fuel) := by
  intro fuel
  induction fuel with
  | zero => intro calls acc _; rfl
  | succ fuel ih =>
    intro calls acc h
    obtain ⟨hrec, htc⟩ := h calls acc (le_refl _) (by omega)
    have htake : ((parseToolCalls ((responses calls acc).getField "toolCalls")).take 4).isEmpty
        = false := by
      cases hl : parseToolCalls ((responses calls acc).getField "toolCalls") with
      | nil => rw [hl] at htc; simp at htc
      | cons a l => simp [List.take_succ_cons]
    simp only [runAgentRounds, hrec, if_true, htake, Bool.false_eq_true, if_false]
    rw [ih (calls + 1) _ (fun i acc2 hle hlt => h i acc2 (by omega) (by omega))]
    have : calls + 1 + fuel = calls + (fuel + 1) := by omega
    rw [this]

/-- C2: when the parsed payload of every one of the `MAX_TOOL_ROUNDS`
reachable rounds contains at least one whitelisted tool call, the
orchestrator performs exactly 4 transport calls and fails with the
round-budget-exhaustion error; moreover the outcome only depends on the
first 4 transport answers, so a 5th call is never issued. -/
theorem runScheduleAgent_round_budget (env : AgentEnv)
    (responses : Nat → List ToolExecutionResult → JsonValue)
    (h : ∀ i acc, i < MAX_TOOL_ROUNDS →
      (responses i acc).isRecord = true
        ∧ (parseToolCalls ((responses i acc).getField "toolCalls")).isEmpty = false) :
    runScheduleAgent env responses = (.error .noFinalProposal, MAX_TOOL_ROUNDS)
      ∧ (∀ responses2,
          (∀ i acc, i < MAX_TOOL_ROUNDS → responses2 i acc = responses i acc) →
          runScheduleAgent env responses2 = runScheduleAgent env responses) := by
  constructor
  · have hx := runAgentRounds_exhaust env responses MAX_TOOL_ROUNDS 0 []
      (fun i acc2 _ hlt => h i acc2 (by simpa using hlt))
    simpa [runScheduleAgent] using hx
  · intro responses2 hagree
    exact runAgentRounds_agree env responses2 responses MAX_TOOL_ROUNDS 0 []
      (fun i acc2 _ hlt => hagree i acc2 (by simpa using hlt))

/-- C2 (witness): a transport that always requests `current_datetime`
exhausts the budget after exactly 4 calls. -/
theorem runScheduleAgent_round_budget_witness :
    runScheduleAgent loopEnv toolOnlyResponses = (.error .noFinalProposal, MAX_TOOL_ROUNDS) :=
  (runScheduleAgent_round_budget loopEnv toolOnlyResponses
    (fun _ _ _ => ⟨rfl, rfl⟩)).1

/-- C7: within one round on a record payload, (i) when the capped tool
calls are non-empty they are executed and appended and the loop continues
— and, by (iii), the round's `proposal` field is ignored: any payload with
the same parsed tool calls yields the identical outcome; (ii) when the
round requests no tool calls the loop stops with that payload's final
result regardless of remaining rounds. -/
theorem runAgentRounds_one_round (env : AgentEnv)
    (responses : Nat → List ToolExecutionResult → JsonValue) (fuel calls : Nat)
    (acc : List ToolExecutionResult)
    (hrec : (responses calls acc).isRecord = true) :
    (((parseToolCalls ((responses calls acc).getField "toolCalls")).take 4).isEmpty = false →
       runAgentRounds env responses (fuel + 1) calls acc
         = runAgentRounds env responses fuel (calls + 1)
             (acc ++ ((parseToolCalls ((responses calls acc).getField "toolCalls")).take 4).map
               (executeToolCall env.getTime env.nowIso env.tasks env.projects env.taskTypes)))
    ∧ (((parseToolCalls ((responses calls acc).getField "toolCalls")).take 4).isEmpty = true →
       runAgentRounds env responses (fuel + 1) calls acc
         = (.ok (finalizeRound (responses calls acc)), calls + 1))
    ∧ (∀ payload2, payload2.isRecord = true →
        parseToolCalls (payload2.getField "toolCalls")
          = parseToolCalls ((responses calls acc).getField "toolCalls") →
        ((parseToolCalls ((responses calls acc).getField "toolCalls")).take 4).isEmpty = false →
        runAgentRounds env (updateResponse responses calls payload2) (fuel + 1) calls acc
          = runAgentRounds env responses (fuel + 1) calls acc) := by
  refine ⟨?_, ?_, ?_⟩
  · intro hne
    simp only [runAgentRounds, hrec, if_true, hne, Bool.false_eq_true, if_false]
  · intro hemp
    simp only [runAgentRounds, hrec, if_true, hemp, if_true]
  · intro payload2 hrec2 htc hne
    have hupd : updateResponse responses calls payload2 calls acc = payload2 := by
      simp [updateResponse]
    simp only [runAgentRounds, hupd, hrec, hrec2, if_true, htc, hne, Bool.false_eq_true, if_false]
    exact runAgentRounds_agree env (updateResponse responses calls payload2) responses fuel
      (calls + 1) _ (fun i acc2 hle _ => by
        have : i ≠ calls := by omega
        simp [updateResponse, this])

/-- C7 (witness): with a concrete payload carrying both a tool call and a
proposal the loop continues with the tool results (first conjunct), the
proposal is ignored — replacing the payload by one with the same tool
calls and no proposal does not change the outcome (second) — and a
payload with no tool calls ends the run with its final result (third). -/
theorem runAgentRounds_one_round_witness :
    (runAgentRounds loopEnv bothResponses 4 0 []
        = runAgentRounds loopEnv bothResponses 3 1
            ([] ++ ((parseToolCalls ((bothResponses 0 []).getField "toolCalls")).take 4).map
              (executeToolCall loopEnv.getTime loopEnv.nowIso loopEnv.tasks loopEnv.projects
                loopEnv.taskTypes)))
      ∧ runAgentRounds loopEnv (updateResponse bothResponses 0 toolOnlyPayload) 4 0 []
          = runAgentRounds loopEnv bothResponses 4 0 []
      ∧ runAgentRounds loopEnv proposalOnlyResponses 4 0 []
          = (.ok (finalizeRound (proposalOnlyResponses 0 [])), 0 + 1) := by
  have h1 := runAgentRounds_one_round loopEnv bothResponses 3 0 [] rfl
  have h2 := runAgentRounds_one_round loopEnv proposalOnlyResponses 3 0 [] rfl
  exact ⟨h1.1 rfl, h1.2.2 toolOnlyPayload rfl rfl rfl, h2.2.1 rfl⟩

/-- Helper: membership in a JS-set after `add`. -/
theorem mem_addToSet (l : List String) (x y : String) :
    y ∈ addToSet l x ↔ y ∈ l ∨ y = x := by
  unfold addToSet
  by_cases h : x ∈ l
  · simp only [if_pos h]
    constructor
    · exact Or.inl
    · rintro (hy | rfl)
      · exact hy
      · exact h
  · simp [if_neg h]

/-- Helper: `addEdge` never adds or removes keys. -/
theorem lookupEntry_addEdge_isSome (m : List (String × List String)) (k x k' : String) :
    (lookupEntry (addEdge m k x) k').isSome = (lookupEntry m k').isSome := by
  induction m with
  | nil => rfl
  | cons p rest ih =>
    obtain ⟨k0, v0⟩ := p
    by_cases hk : k0 = k
    · subst hk
      simp only [addEdge, if_pos rfl, lookupEntry]
      by_cases hk' : k0 = k' <;> simp [hk']
    · simp only [addEdge, if_neg hk, lookupEntry]
      by_cases hk' : k0 = k' <;> simp [hk', ih]

/-- Helper: membership in an entry after `addEdge`. -/
theorem mem_addEdge (m : List (String × List String)) (k x k' y : String) :
    y ∈ entryOf (addEdge m k x) k' ↔
      (y ∈ entryOf m k' ∨ (k' = k ∧ y = x ∧ (lookupEntry m k).isSome = true)) := by
  induction m with
  | nil => simp [addEdge, entryOf, lookupEntry]
  | cons p rest ih =>
    obtain ⟨k0, v0⟩ := p
    by_cases hk : k0 = k
    · subst hk
      by_cases hk' : k0 = k'
      · subst hk'
        simp [addEdge, entryOf, lookupEntry, mem_addToSet]
      · simp [addEdge, entryOf, lookupEntry, hk', Ne.symm hk']
    · by_cases hk' : k0 = k'
      · subst hk'
        simp only [addEdge, if_neg hk, entryOf, lookupEntry, if_pos rfl]
        simp [hk]
      · simp only [addEdge, if_neg hk, entryOf, lookupEntry, if_neg hk']
        exact ih

/-- Helper: one `pairStep` preserves the key set. -/
theorem lookupEntry_pairStep_isSome (getTime : String → Int)
    (m : List (String × List String)) (p : Task × Task) (k : String) :
    (lookupEntry (pairStep getTime m p) k).isSome = (lookupEntry m k).isSome := by
  unfold pairStep
  split
  · rw [lookupEntry_addEdge_isSome, lookupEntry_addEdge_isSome]
  · rfl

/-- Helper: the whole pair loop preserves the key set. -/
theorem lookupEntry_foldPairs_isSome (getTime : String → Int) (ps : List (Task × Task))
    (m : List (String × List String)) (k : String) :
    (lookupEntry (ps.foldl (pairStep getTime) m) k).isSome = (lookupEntry m k).isSome := by
  induction ps generalizing m with
  | nil => rfl
  | cons p ps ih => rw [List.foldl_cons, ih, lookupEntry_pairStep_isSome]

/-- Helper: membership after one `pairStep`. -/
theorem mem_pairStep (getTime : String → Int) (m : List (String × List String))
    (p : Task × Task) (k y : String) :
    y ∈ entryOf (pairStep getTime m p) k ↔
      (y ∈ entryOf m k ∨
        (overlaps (toTimeRange getTime p.1.startAt p.1.endAt)
            (toTimeRange getTime p.2.startAt p.2.endAt) = true
          ∧ ((k = p.1.id ∧ y = p.2.id) ∨ (k = p.2.id ∧ y = p.1.id))
          ∧ (lookupEntry m k).isSome = true)) := by
  unfold pairStep
  split
  · rename_i hov
    rw [mem_addEdge, mem_addEdge, lookupEntry_addEdge_isSome]
    constructor
    · rintro ((hy | ⟨rfl, rfl, hsome⟩) | ⟨rfl, rfl, hsome⟩)
      · exact Or.inl hy
      · exact Or.inr ⟨hov, Or.inl ⟨rfl, rfl⟩, hsome⟩
      · exact Or.inr ⟨hov, Or.inr ⟨rfl, rfl⟩, hsome⟩
    · rintro (hy | ⟨_, (⟨rfl, rfl⟩ | ⟨rfl, rfl⟩), hsome⟩)
      · exact Or.inl (Or.inl hy)
      · exact Or.inl (Or.inr ⟨rfl, rfl, hsome⟩)
      · exact Or.inr ⟨rfl, rfl, hsome⟩
  · rename_i hov
    simp only [Bool.not_eq_true] at hov
    simp [hov]

/-- Helper: membership after the whole pair loop. -/
theorem mem_foldPairs (getTime : String → Int) (ps : List (Task × Task))
    (m : List (String × List String)) (k y : String) :
    y ∈ entryOf (ps.foldl (pairStep getTime) m) k ↔
      (y ∈ entryOf m k ∨
        ∃ p, p ∈ ps ∧
          overlaps (toTimeRange getTime p.1.startAt p.1.endAt)
              (toTimeRange getTime p.2.startAt p.2.endAt) = true
            ∧ ((k = p.1.id ∧ y = p.2.id) ∨ (k = p.2.id ∧ y = p.1.id))
            ∧ (lookupEntry m k).isSome = true) := by
  induction ps generalizing m with
  | nil => simp
  | cons p ps ih =>
    rw [List.foldl_cons, ih]
    simp only [lookupEntry_pairStep_isSome, mem_pairStep, List.mem_cons]
    constructor
    · rintro ((hy | hp) | ⟨q, hq, hrest⟩)
      · exact Or.inl hy
      · exact Or.inr ⟨p, Or.inl rfl, hp⟩
      · exact Or.inr ⟨q, Or.inr hq, hrest⟩
    · rintro (hy | ⟨q, (rfl | hq), hrest⟩)
      · exact Or.inl (Or.inl hy)
      · exact Or.inl (Or.inr hrest)
      · exact Or.inr ⟨q, hq, hrest⟩

/-- Helper: lookup after `putEntry`. -/
theorem lookupEntry_putEntry (m : List (String × List String)) (k : String) (v : List String)
    (k' : String) :
    lookupEntry (putEntry m k v) k' = if k = k' then some v else lookupEntry m k' := by
  induction m with
  | nil => simp [putEntry, lookupEntry]
  | cons p rest ih =>
    obtain ⟨k0, v0⟩ := p
    by_cases hk : k0 = k
    · subst hk
      simp only [putEntry, if_pos rfl, lookupEntry]
      by_cases hk' : k0 = k' <;> simp [hk']
    · simp only [putEntry, if_neg hk, lookupEntry]
      by_cases hk' : k0 = k'
      · subst hk'
        simp [Ne.symm hk, hk]
      · simp [hk', ih]

/-- Helper: lookup in the initialisation fold: every processed id is bound
to the empty set. -/
theorem lookupEntry_initFold (ts : List Task) (m0 : List (String × List String)) (k : String) :
    lookupEntry (ts.foldl (fun m t => putEntry m t.id []) m0) k
      = if k ∈ ts.map Task.id then some [] else lookupEntry m0 k := by
  induction ts generalizing m0 with
  | nil => simp
  | cons t ts ih =>
    simp only [List.foldl_cons, ih, lookupEntry_putEntry, List.map_cons, List.mem_cons]
    by_cases h : k ∈ ts.map Task.id
    · simp [h]
    · by_cases h2 : k = t.id
      · simp [h, h2]
      · have h2s : ¬ t.id = k := fun hh => h2 hh.symm
        simp [h, h2, h2s]

/-- Helper: both components of an ordered pair come from the list. -/
theorem mem_of_mem_orderedPairs {α : Type} (l : List α) (p : α × α)
    (hp : p ∈ orderedPairs l) : p.1 ∈ l ∧ p.2 ∈ l := by
  induction l with
  | nil => simp [orderedPairs] at hp
  | cons x xs ih =>
    simp only [orderedPairs, List.mem_append, List.mem_map] at hp
    rcases hp with ⟨y, hy, rfl⟩ | hp
    · exact ⟨List.mem_cons_self .., List.mem_cons_of_mem _ hy⟩
    · obtain ⟨h1, h2⟩ := ih hp
      exact ⟨List.mem_cons_of_mem _ h1, List.mem_cons_of_mem _ h2⟩

/-- Helper: under an injective labelling, the two components of an ordered
pair have distinct labels. -/
theorem orderedPairs_label_ne {α β : Type} (f : α → β) (l : List α)
    (hnodup : (l.map f).Nodup) (p : α × α) (hp : p ∈ orderedPairs l) :
    f p.1 ≠ f p.2 := by
  induction l with
  | nil => simp [orderedPairs] at hp
  | cons x xs ih =>
    simp only [List.map_cons, List.nodup_cons] at hnodup
    simp only [orderedPairs, List.mem_append, List.mem_map] at hp
    rcases hp with ⟨y, hy, rfl⟩ | hp
    · intro hcontra
      exact hnodup.1 (hcontra ▸ List.mem_map_of_mem f hy)
    · exact ih hnodup.2 hp

/-- Helper: any two elements with distinct labels appear as an ordered
pair in one of the two orders. -/
theorem orderedPairs_total {α : Type} (l : List α) (a b : α)
    (ha : a ∈ l) (hb : b ∈ l) (hab : a ≠ b) :
    (a, b) ∈ orderedPairs l ∨ (b, a) ∈ orderedPairs l := by
  induction l with
  | nil => simp at ha
  | cons x xs ih =>
    rcases List.mem_cons.mp ha with rfl | ha'
    · rcases List.mem_cons.mp hb with rfl | hb'
      · exact absurd rfl hab
      · refine Or.inl ?_
        simp only [orderedPairs, List.mem_append, List.mem_map]
        exact Or.inl ⟨b, hb', rfl⟩
    · rcases List.mem_cons.mp hb with rfl | hb'
      · refine Or.inr ?_
        simp only [orderedPairs, List.mem_append, List.mem_map]
        exact Or.inl ⟨a, ha', rfl⟩
      · rcases ih ha' hb' with h | h
        · refine Or.inl ?_
          simp only [orderedPairs, List.mem_append]
          exact Or.inr h
        · refine Or.inr ?_
          simp only [orderedPairs, List.mem_append]
          exact Or.inr h

/-- Helper: `overlaps` is symmetric. -/
theorem overlaps_comm (a b : TimeRange) : overlaps a b = overlaps b a := by
  simp [overlaps, Bool.and_comm]

/-- Helper: the conflict map's key set is exactly the active ids. -/
theorem buildTaskConflictMap_keys (getTime : String → Int) (tasks : List Task) (k : String) :
    (lookupEntry (buildTaskConflictMap getTime tasks) k).isSome = true
      ↔ k ∈ (activeTasks tasks).map Task.id := by
  rw [buildTaskConflictMap, lookupEntry_foldPairs_isSome, initConflictMap, lookupEntry_initFold]
  by_cases h : k ∈ (activeTasks tasks).map Task.id <;> simp [h, lookupEntry]

/-- Helper: full membership characterization of the conflict map in terms
of the ordered pairs of active tasks. -/
theorem mem_buildTaskConflictMap (getTime : String → Int) (tasks : List Task) (k y : String) :
    y ∈ entryOf (buildTaskConflictMap getTime tasks) k ↔
      ∃ p, p ∈ orderedPairs (activeTasks tasks)
        ∧ overlaps (toTimeRange getTime p.1.startAt p.1.endAt)
            (toTimeRange getTime p.2.startAt p.2.endAt) = true
        ∧ ((k = p.1.id ∧ y = p.2.id) ∨ (k = p.2.id ∧ y = p.1.id))
        ∧ k ∈ (activeTasks tasks).map Task.id := by
  rw [buildTaskConflictMap, mem_foldPairs]
  have hinit : entryOf (initConflictMap (activeTasks tasks)) k = [] := by
    rw [entryOf, initConflictMap, lookupEntry_initFold]
    by_cases h : k ∈ (activeTasks tasks).map Task.id <;> simp [h, lookupEntry]
  have hinitSome : (lookupEntry (initConflictMap (activeTasks tasks)) k).isSome = true
      ↔ k ∈ (activeTasks tasks).map Task.id := by
    rw [initConflictMap, lookupEntry_initFold]
    by_cases h : k ∈ (activeTasks tasks).map Task.id <;> simp [h, lookupEntry]
  rw [hinit]
  simp only [List.not_mem_nil, false_or]
  constructor
  · rintro ⟨p, hp, hov, hid, hsome⟩
    exact ⟨p, hp, hov, hid, hinitSome.mp hsome⟩
  · rintro ⟨p, hp, hov, hid, hmem⟩
    exact ⟨p, hp, hov, hid, hinitSome.mpr hmem⟩

/-- Helper: membership in `activeTasks`. -/
theorem mem_activeTasks (tasks : List Task) (t : Task) :
    t ∈ activeTasks tasks ↔ t ∈ tasks ∧ t.status ≠ TaskStatus.DONE := by
  simp [activeTasks, List.mem_filter]

/-- C5 (amended, for task lists with pairwise-distinct ids):
`buildTaskConflictMap` keys exactly the non-DONE tasks; the conflict
relation is symmetric and irreflexive; and task `b` is listed under task
`a` exactly when both are non-DONE, have different ids, and their clamped
inclusive `[start, end]` ranges intersect (`start ≤ other.end` both ways,
so touching endpoints conflict). -/
theorem buildTaskConflictMap_spec (getTime : String → Int) (tasks : List Task)
    (hnodup : (tasks.map Task.id).Nodup) :
    (∀ k, (lookupEntry (buildTaskConflictMap getTime tasks) k).isSome = true
        ↔ ∃ t, t ∈ tasks ∧ t.status ≠ TaskStatus.DONE ∧ t.id = k)
    ∧ (∀ k y, y ∈ entryOf (buildTaskConflictMap getTime tasks) k
        → k ∈ entryOf (buildTaskConflictMap getTime tasks) y)
    ∧ (∀ k, k ∉ entryOf (buildTaskConflictMap getTime tasks) k)
    ∧ (∀ a, a ∈ tasks → ∀ b, b ∈ tasks →
        (b.id ∈ entryOf (buildTaskConflictMap getTime tasks) a.id
          ↔ (a.status ≠ TaskStatus.DONE ∧ b.status ≠ TaskStatus.DONE ∧ a.id ≠ b.id
              ∧ (toTimeRange getTime a.startAt a.endAt).startMs
                  ≤ (toTimeRange getTime b.startAt b.endAt).endMs
              ∧ (toTimeRange getTime b.startAt b.endAt).startMs
                  ≤ (toTimeRange getTime a.startAt a.endAt).endMs))) := by
  have hactnodup : ((activeTasks tasks).map Task.id).Nodup :=
    List.Nodup.sublist ((List.filter_sublist tasks).map Task.id) hnodup
  refine ⟨?_, ?_, ?_, ?_⟩
  · intro k
    rw [buildTaskConflictMap_keys]
    simp only [List.mem_map, mem_activeTasks]
    constructor
    · rintro ⟨t, ⟨ht, hs⟩, rfl⟩
      exact ⟨t, ht, hs, rfl⟩
    · rintro ⟨t, ht, hs, rfl⟩
      exact ⟨t, ⟨ht, hs⟩, rfl⟩
  · intro k y hy
    rw [mem_buildTaskConflictMap] at hy ⊢
    obtain ⟨p, hp, hov, hid, _⟩ := hy
    obtain ⟨h1, h2⟩ := mem_of_mem_orderedPairs _ p hp
    rcases hid with ⟨rfl, rfl⟩ | ⟨rfl, rfl⟩
    · exact ⟨p, hp, hov, Or.inr ⟨rfl, rfl⟩, List.mem_map_of_mem Task.id h2⟩
    · exact ⟨p, hp, hov, Or.inl ⟨rfl, rfl⟩, List.mem_map_of_mem Task.id h1⟩
  · intro k hk
    rw [mem_buildTaskConflictMap] at hk
    obtain ⟨p, hp, _, hid, _⟩ := hk
    have hne := orderedPairs_label_ne Task.id _ hactnodup p hp
    rcases hid with ⟨h1, h2⟩ | ⟨h1, h2⟩
    · exact hne (h1 ▸ h2 ▸ rfl)
    · exact hne (h2 ▸ h1 ▸ rfl)
  · intro a ha b hb
    rw [mem_buildTaskConflictMap]
    constructor
    · rintro ⟨p, hp, hov, hid, _⟩
      obtain ⟨h1, h2⟩ := mem_of_mem_orderedPairs _ p hp
      have h1t := (mem_activeTasks tasks p.1).mp h1
      have h2t := (mem_activeTasks tasks p.2).mp h2
      have hne := orderedPairs_label_ne Task.id _ hactnodup p hp
      simp only [overlaps, Bool.and_eq_true, decide_eq_true_eq] at hov
      rcases hid with ⟨hida, hidb⟩ | ⟨hida, hidb⟩
      · have hap : a = p.1 := List.inj_on_of_nodup_map hnodup ha h1t.1 hida
        have hbp : b = p.2 := List.inj_on_of_nodup_map hnodup hb h2t.1 hidb
        subst hap; subst hbp
        exact ⟨h1t.2, h2t.2, hne, hov.1, hov.2⟩
      · have hap : a = p.2 := List.inj_on_of_nodup_map hnodup ha h2t.1 hida
        have hbp : b = p.1 := List.inj_on_of_nodup_map hnodup hb h1t.1 hidb
        subst hap; subst hbp
        exact ⟨h2t.2, h1t.2, fun h => hne h.symm, hov.2, hov.1⟩
    · rintro ⟨hsa, hsb, hne, hov1, hov2⟩
      have ha' : a ∈ activeTasks tasks := (mem_activeTasks tasks a).mpr ⟨ha, hsa⟩
      have hb' : b ∈ activeTasks tasks := (mem_activeTasks tasks b).mpr ⟨hb, hsb⟩
      have hab : a ≠ b := fun h => hne (h ▸ rfl)
      have hamem : a.id ∈ (activeTasks tasks).map Task.id := List.mem_map_of_mem Task.id ha'
      rcases orderedPairs_total (activeTasks tasks) a b ha' hb' hab with hp | hp
      · refine ⟨(a, b), hp, ?_, Or.inl ⟨rfl, rfl⟩, hamem⟩
        simp only [overlaps, Bool.and_eq_true, decide_eq_true_eq]
        exact ⟨hov1, hov2⟩
      · refine ⟨(b, a), hp, ?_, Or.inr ⟨rfl, rfl⟩, hamem⟩
        simp only [overlaps, Bool.and_eq_true, decide_eq_true_eq]
        exact ⟨hov2, hov1⟩

/-- C5 (counterexample to the unrestricted claim): when two active,
overlapping tasks share the id `"x"`, the map lists `"x"` as conflicting
with itself, violating irreflexivity. -/
theorem buildTaskConflictMap_self_conflict :
    "x" ∈ entryOf (buildTaskConflictMap (fun _ => 0) [dupTaskA, dupTaskB]) "x" := by
  decide

/-- C5 (witness): two overlapping active tasks with distinct ids conflict
both ways. -/
theorem buildTaskConflictMap_spec_witness :
    "b" ∈ entryOf (buildTaskConflictMap (fun _ => 0) [conflictTaskA, conflictTaskB]) "a"
      ∧ "a" ∈ entryOf (buildTaskConflictMap (fun _ => 0) [conflictTaskA, conflictTaskB]) "b" := by
  have h := buildTaskConflictMap_spec (fun _ => 0) [conflictTaskA, conflictTaskB] (by decide)
  have hchar := h.2.2.2 conflictTaskA (by simp) conflictTaskB (by simp)
  have hmem : conflictTaskB.id
      ∈ entryOf (buildTaskConflictMap (fun _ => 0) [conflictTaskA, conflictTaskB])
        conflictTaskA.id :=
    hchar.mpr ⟨by decide, by decide, by decide, by decide, by decide⟩
  exact ⟨hmem, h.2.1 conflictTaskA.id conflictTaskB.id hmem⟩

/-- Helper: `Option.isNone` through `Option.isSome`. -/
theorem isNone_eq_not_isSome {α : Type} (o : Option α) : o.isNone = !o.isSome := by
  cases o <;> rfl

/-- Helper: the change-set built by `parseUpdateOperation` is empty exactly
when no recognized, correctly-typed field is present. -/
theorem buildUpdateChanges_isEmpty (src : JsonValue) :
    (buildUpdateChanges src).isEmpty = !(claimUpdateHasRecognizedChange src) := by
  simp only [TaskChanges.isEmpty, buildUpdateChanges, claimUpdateHasRecognizedChange,
    hasTextField, Bool.not_or, isNone_eq_not_isSome]

/-- C1 (amended): `parseCreateOperation` accepts a candidate payload exactly
when `title`, `taskTypeId`, `projectId` and `startAt` are all present as
text (the title may be empty), and an accepted payload defaults `status`
to `NOT_DONE` and `isMajor` to `false` when those fields are absent or
ill-typed. -/
theorem parseCreateOperation_accepts_iff (v : JsonValue) :
    ((parseCreateOperation v).isSome
      = (isActionRecord v "create_task" && hasTextField v "title" && hasTextField v "taskTypeId"
          && hasTextField v "projectId" && hasTextField v "startAt"))
    ∧ ∀ op, parseCreateOperation v = some op →
        (asTaskStatus (v.getField "status") = none → op.status = TaskStatus.NOT_DONE)
          ∧ (asBool (v.getField "isMajor") = none → op.isMajor = false) := by
  constructor
  · by_cases h : isActionRecord v "create_task"
    · simp only [parseCreateOperation, h, if_true, hasTextField, Bool.true_and]
      cases asString (v.getField "title") <;> cases asString (v.getField "taskTypeId") <;>
        cases asString (v.getField "projectId") <;> cases asString (v.getField "startAt") <;> simp
    · simp [parseCreateOperation, h, Bool.false_and]
  · intro op hop
    rw [parseCreateOperation] at hop
    split at hop
    · split at hop
      · injection hop with hop
        subst hop
        refine ⟨fun hs => ?_, fun hb => ?_⟩
        · simp [hs]
        · simp [hb]
      · simp at hop
    · simp at hop

/-- C1 (counterexample): the payload with an empty title is accepted by
`parseCreateOperation` although the claim's acceptance condition (non-empty
title) rejects it. -/
theorem parseCreateOperation_accepts_empty_title :
    (parseCreateOperation emptyTitleCreatePayload).isSome = true
      ∧ claimCreateAccepts emptyTitleCreatePayload = false := by
  constructor <;> rfl

/-- C1 (witness for the amended theorem at the minimal payload). -/
theorem parseCreateOperation_accepts_iff_witness :
    (parseCreateOperation minimalCreatePayload).isSome = true
      ∧ minimalCreateOp.status = TaskStatus.NOT_DONE ∧ minimalCreateOp.isMajor = false := by
  have h := parseCreateOperation_accepts_iff minimalCreatePayload
  exact ⟨by rw [h.1]; rfl, (h.2 minimalCreateOp (by decide)).1 rfl,
    (h.2 minimalCreateOp (by decide)).2 rfl⟩

/-- C6: `parseUpdateOperation` produces an operation exactly when the
payload is an `update_task` record with a string `taskId` and at least one
recognized, correctly-typed field in its change-set; a produced operation
never has an empty change-set (no no-op operations). -/
theorem parseUpdateOperation_accepts_iff (v : JsonValue) :
    ((parseUpdateOperation v).isSome
      = (isActionRecord v "update_task" && (asString (v.getField "taskId")).isSome
          && claimUpdateHasRecognizedChange (sourceChanges v)))
    ∧ ∀ op, parseUpdateOperation v = some op → op.changes.isEmpty = false := by
  constructor
  · by_cases h : isActionRecord v "update_task"
    · simp only [parseUpdateOperation, h, if_true, Bool.true_and]
      cases asString (v.getField "taskId") with
      | none => simp
      | some taskId =>
        simp only [Option.isSome_some, Bool.true_and]
        rw [buildUpdateChanges_isEmpty]
        cases claimUpdateHasRecognizedChange (sourceChanges v) <;> simp
    · simp [parseUpdateOperation, h, Bool.false_and]
  · intro op hop
    rw [parseUpdateOperation] at hop
    split at hop
    · split at hop
      · rename_i taskId heq
        split at hop
        · simp at hop
        · rename_i hne
          injection hop with hop
          subst hop
          simpa using hne
      · simp at hop
    · simp at hop

/-- C6 (witness at a concrete `update_task` payload). -/
theorem parseUpdateOperation_accepts_iff_witness :
    (parseUpdateOperation sampleUpdatePayload).isSome = true
      ∧ sampleUpdateOp.changes.isEmpty = false := by
  have h := parseUpdateOperation_accepts_iff sampleUpdatePayload
  exact ⟨by rw [h.1]; rfl, h.2 sampleUpdateOp (by decide)⟩

/-- Helper: the filter predicate of `search_tasks`, written as an
early-return chain, equals the claim's conjunction of the project filter,
the status filter and the keyword substring match. -/
theorem searchMatches_eq_claim (projects : List Project) (taskTypes : List TaskType)
    (args : JsonValue) (t : Task) :
    searchMatches projects taskTypes args t = claimSearchMatch projects taskTypes args t := by
  have hif1 : ∀ (c e : Bool), (if c = true then false else e) = (!c && e) := by decide
  have hif2 : ∀ (c e : Bool), (if c = true then true else e) = (c || e) := by decide
  have hdb : ∀ {α : Type} [inst : DecidableEq α] (a b : α), decide (a = b) = (a == b) := by
    intro α inst a b
    by_cases h : a = b <;> simp [h]
  cases hst : asTaskStatus (args.getField "status") <;>
    simp [searchMatches, claimSearchMatch, hst, hif1, hif2, bne,
      Bool.not_and, Bool.not_not, hdb, Bool.and_assoc]

/-- C8: on a `search_tasks` call, `executeToolCall` returns exactly the
tasks passing the optional project and status filters and the
case-insensitive keyword substring match over title, body, resolved
project name and resolved type name; sorted most-recently-updated first;
truncated to the caller limit clamped into [1, 50], defaulting to 20. -/
theorem executeToolCall_search_spec (getTime : String → Int) (nowIso : String)
    (tasks : List Task) (projects : List Project) (taskTypes : List TaskType) (args : JsonValue) :
    (executeToolCall getTime nowIso tasks projects taskTypes { tool := .search_tasks, args := args }
        = { tool := .search_tasks, args := args, ok := true,
            result := .searchResults (searchResults getTime tasks projects taskTypes args) })
    ∧ (∀ t, searchMatches projects taskTypes args t = claimSearchMatch projects taskTypes args t)
    ∧ (searchResults getTime tasks projects taskTypes args).length
        = min (searchLimit args).toNat (searchFiltered projects taskTypes tasks args).length
    ∧ List.Pairwise (fun x y => getTime y.updatedAt ≤ getTime x.updatedAt)
        (searchResults getTime tasks projects taskTypes args)
    ∧ (∀ item, item ∈ searchResults getTime tasks projects taskTypes args →
        ∃ t, t ∈ tasks ∧ searchMatches projects taskTypes args t = true
          ∧ item = toSearchItem projects taskTypes t)
    ∧ ((searchFiltered projects taskTypes tasks args).length ≤ (searchLimit args).toNat →
        ∀ t, t ∈ tasks → searchMatches projects taskTypes args t = true →
          toSearchItem projects taskTypes t ∈ searchResults getTime tasks projects taskTypes args)
    ∧ 1 ≤ searchLimit args ∧ searchLimit args ≤ 50
    ∧ (asNum (args.getField "limit") = none → searchLimit args = 20) := by
  refine ⟨rfl, searchMatches_eq_claim projects taskTypes args, ?_, ?_, ?_, ?_, ?_, ?_, ?_⟩
  · simp [searchResults, List.length_take]
  · have hsorted : List.Pairwise
        (fun a b : Task =>
          (decide (getTime b.updatedAt ≤ getTime a.updatedAt)) = true)
        ((searchFiltered projects taskTypes tasks args).mergeSort
          (fun a b => decide (getTime b.updatedAt ≤ getTime a.updatedAt))) :=
      List.sorted_mergeSort
        (fun a b c hab hbc => by
          simp only [decide_eq_true_eq] at hab hbc ⊢
          exact le_trans hbc hab)
        (fun a b => by
          simp only [Bool.or_eq_true, decide_eq_true_eq]
          exact le_total (getTime b.updatedAt) (getTime a.updatedAt))
        (searchFiltered projects taskTypes tasks args)
    have htake := hsorted.sublist (List.take_sublist (searchLimit args).toNat _)
    rw [searchResults, List.pairwise_map]
    exact htake.imp (by
      intro a b h
      simpa [toSearchItem] using of_decide_eq_true h)
  · intro item hitem
    rw [searchResults] at hitem
    obtain ⟨t, ht, rfl⟩ := List.mem_map.mp hitem
    have ht2 := List.mem_mergeSort.mp (List.mem_of_mem_take ht)
    have ht3 := List.mem_filter.mp ht2
    exact ⟨t, ht3.1, ht3.2, rfl⟩
  · intro hlen t ht hm
    have htf : t ∈ searchFiltered projects taskTypes tasks args :=
      List.mem_filter.mpr ⟨ht, hm⟩
    have hms : t ∈ (searchFiltered projects taskTypes tasks args).mergeSort
        (fun a b => decide (getTime b.updatedAt ≤ getTime a.updatedAt)) :=
      List.mem_mergeSort.mpr htf
    rw [searchResults, List.take_of_length_le (by simpa using hlen)]
    exact List.mem_map_of_mem _ hms
  · exact le_max_left ..
  · exact max_le (by norm_num) (min_le_left ..)
  · intro h
    simp only [searchLimit, h, Option.getD_none]
    have h20 : Rat.floor 20 = 20 := by decide
    rw [h20]
    decide

/-- C8 (witness): with two concrete tasks and a concrete keyword search,
the matching task's row is returned and the clamped limit is positive. -/
theorem executeToolCall_search_spec_witness :
    toSearchItem [] [] searchTaskA
        ∈ searchResults (fun _ => 0) [searchTaskA, searchTaskB] [] [] searchArgsSample
      ∧ 1 ≤ searchLimit searchArgsSample := by
  have h := executeToolCall_search_spec (fun _ => 0) "" [searchTaskA, searchTaskB] [] []
    searchArgsSample
  exact ⟨h.2.2.2.2.2.1 (by decide) searchTaskA (by simp) (by decide), h.2.2.2.2.2.2.1⟩

/-- C9: `requestLlmResponse` fails exactly when the HTTP response has a
non-success status or the extracted assistant text is empty after
trimming; the non-success error reports the status code and at most 240
characters of the body; a success returns the trimmed text extracted via
`choices[0].message.content`, else `message.content`, else top-level
`content` (`extractedText`). -/
theorem requestLlmResponse_spec (resp : FetchResponse) :
    (exceptIsError (requestLlmResponse resp)
      = (!resp.ok || (jsTrim (extractedText resp.json) == "")))
    ∧ (resp.ok = false →
        requestLlmResponse resp
          = .error ("LLM 호출 실패 (" ++ toString resp.status ++ "): " ++ sliceChars resp.body 240))
    ∧ (sliceChars resp.body 240).length ≤ 240
    ∧ (∀ s, requestLlmResponse resp = .ok s →
        resp.ok = true ∧ s = jsTrim (extractedText resp.json) ∧ s ≠ "") := by
  refine ⟨?_, ?_, ?_, ?_⟩
  · cases hok : resp.ok with
    | false => simp [requestLlmResponse, hok, exceptIsError]
    | true =>
      by_cases ht : jsTrim (extractedText resp.json) = ""
      · simp [requestLlmResponse, hok, ht, exceptIsError]
      · simp [requestLlmResponse, hok, ht, exceptIsError]
  · intro hok
    simp [requestLlmResponse, hok]
  · exact List.length_take_le ..
  · intro s hs
    rw [requestLlmResponse] at hs
    cases hok : resp.ok with
    | false => rw [hok] at hs; simp at hs
    | true =>
      rw [hok] at hs
      by_cases ht : jsTrim (extractedText resp.json) = ""
      · rw [if_pos ht] at hs; simp at hs
      · rw [if_neg ht] at hs
        simp only [Bool.not_true, Bool.false_eq_true, if_false] at hs
        injection hs with hs
        exact ⟨rfl, hs.symm, fun hemp => ht (hs.trans hemp)⟩

/-- C9 (witness): the specification applied to a concrete failed response
and a concrete successful one. -/
theorem requestLlmResponse_spec_witness :
    requestLlmResponse sampleErrorResponse
        = .error ("LLM 호출 실패 (" ++ toString sampleErrorResponse.status ++ "): "
            ++ sliceChars sampleErrorResponse.body 240)
      ∧ ("hello" = jsTrim (extractedText sampleOkResponse.json) ∧ "hello" ≠ "") := by
  refine ⟨(requestLlmResponse_spec sampleErrorResponse).2.1 rfl, ?_⟩
  have h := ((requestLlmResponse_spec sampleOkResponse).2.2.2 "hello" (by rfl))
  exact ⟨h.2.1, h.2.2⟩

/-- Helper: the loop attempts exactly the in-range indices it is given, in
order, regardless of per-operation failures. -/
theorem applyLoop_attempted {σ : Type} (applyOp : AgentOperation → σ → Except String σ)
    (ops : List AgentOperation) :
    ∀ idxs (st : σ) att failed,
      (applyLoop applyOp ops idxs st att failed).2.1
        = att ++ idxs.filter (fun i => (ops[i]?).isSome) := by
  intro idxs
  induction idxs with
  | nil => intro st att failed; simp [applyLoop]
  | cons i rest ih =>
    intro st att failed
    cases h : ops[i]? with
    | none => simp [applyLoop, h, ih]
    | some op =>
      cases happ : applyOp op st with
      | ok st2 => simp [applyLoop, h, happ, ih]
      | error e => simp [applyLoop, h, happ, ih]

/-- Helper: every recorded failure is a previous failure or one of the
processed indices. -/
theorem applyLoop_failed_subset {σ : Type} (applyOp : AgentOperation → σ → Except String σ)
    (ops : List AgentOperation) :
    ∀ idxs (st : σ) att failed i,
      i ∈ (applyLoop applyOp ops idxs st att failed).2.2 → i ∈ failed ∨ i ∈ idxs := by
  intro idxs
  induction idxs with
  | nil =>
    intro st att failed i h
    simp only [applyLoop] at h
    exact Or.inl h
  | cons j rest ih =>
    intro st att failed i h
    cases hj : ops[j]? with
    | none =>
      simp only [applyLoop, hj] at h
      rcases ih _ _ _ i h with hf | hr
      · exact Or.inl hf
      · exact Or.inr (List.mem_cons_of_mem _ hr)
    | some op =>
      cases happ : applyOp op st with
      | ok st2 =>
        simp only [applyLoop, hj, happ] at h
        rcases ih _ _ _ i h with hf | hr
        · exact Or.inl hf
        · exact Or.inr (List.mem_cons_of_mem _ hr)
      | error e =>
        simp only [applyLoop, hj, happ] at h
        rcases ih _ _ _ i h with hf | hr
        · rcases List.mem_append.mp hf with hf2 | hf2
          · exact Or.inl hf2
          · simp only [List.mem_singleton] at hf2
            subst hf2
            exact Or.inr (List.mem_cons_self ..)
        · exact Or.inr (List.mem_cons_of_mem _ hr)

/-- C3: with at least one operation selected, `handleApplyProposal`
attempts exactly the selected indices in list order (failures never stop
the remaining attempts), every failure is a selected attempted index, and
the residual proposal consists exactly of the failed still-selected
operations plus the unselected ones in original order — cleared entirely
when that set is empty, so successfully applied operations never remain. -/
theorem handleApplyProposal_spec {σ : Type} (applyOp : AgentOperation → σ → Except String σ)
    (proposal : AgentProposal) (selected : Nat → Bool) (st : σ)
    (st2 : σ) (attempted failed : List Nat) (residual : Option AgentProposal)
    (happ : handleApplyProposal applyOp proposal selected st
      = .applied st2 attempted failed residual) :
    attempted = (List.range proposal.operations.length).filter selected
    ∧ (∀ i, i ∈ failed → selected i = true ∧ i ∈ attempted)
    ∧ (∀ pr, residual = some pr →
        pr.operations = residualOperations proposal.operations selected failed
        ∧ pr.operations ≠ [])
    ∧ (residual = none → residualOperations proposal.operations selected failed = []) := by
  rw [handleApplyProposal] at happ
  by_cases hsel : ((List.range proposal.operations.length).filter selected).isEmpty = true
  · rw [if_pos hsel] at happ
    simp at happ
  · rw [if_neg hsel] at happ
    rcases htrip : applyLoop applyOp proposal.operations
        ((List.range proposal.operations.length).filter selected) st [] [] with ⟨s3, att3, f3⟩
    rw [htrip] at happ
    dsimp only at happ
    have hatt3 : att3 = (List.range proposal.operations.length).filter selected := by
      have h1 := applyLoop_attempted applyOp proposal.operations
        ((List.range proposal.operations.length).filter selected) st [] []
      rw [htrip] at h1
      have hall : ((List.range proposal.operations.length).filter selected).filter
          (fun i => (proposal.operations[i]?).isSome)
          = (List.range proposal.operations.length).filter selected := by
        refine List.filter_eq_self.mpr (fun i hi => ?_)
        have hlt : i < proposal.operations.length :=
          List.mem_range.mp (List.mem_filter.mp hi).1
        simp [List.getElem?_eq_getElem hlt]
      simpa [hall] using h1
    have hfail3 : ∀ i, i ∈ f3 → selected i = true ∧ i ∈ att3 := by
      intro i hi
      have h2 := applyLoop_failed_subset applyOp proposal.operations
        ((List.range proposal.operations.length).filter selected) st [] [] i
      rw [htrip] at h2
      rcases h2 hi with hf | hr
      · simp at hf
      · exact ⟨(List.mem_filter.mp hr).2, hatt3 ▸ hr⟩
    have hresid : (proposal.operations.enum.filter (fun p =>
        if selected p.1 then f3.contains p.1 else true)).map Prod.snd
        = residualOperations proposal.operations selected f3 := by
      rw [residualOperations]
      congr 1
      refine List.filter_congr (fun p _ => ?_)
      cases hs : selected p.1 <;> simp [hs]
    by_cases hrem : ((proposal.operations.enum.filter (fun p =>
        if selected p.1 then f3.contains p.1 else true)).map Prod.snd).isEmpty = true
    · rw [if_pos hrem] at happ
      simp only [ApplyResult.applied.injEq] at happ
      obtain ⟨h1, h2, h3, h4⟩ := happ
      subst h1; subst h2; subst h3; subst h4
      refine ⟨hatt3, hfail3, ?_, ?_⟩
      · intro pr hpr
        simp at hpr
      · intro _
        rw [← hresid]
        simpa using hrem
    · rw [if_neg hrem] at happ
      simp only [ApplyResult.applied.injEq] at happ
      obtain ⟨h1, h2, h3, h4⟩ := happ
      subst h1; subst h2; subst h3; subst h4
      refine ⟨hatt3, hfail3, ?_, ?_⟩
      · intro pr hpr
        simp only [Option.some.injEq] at hpr
        subst hpr
        refine ⟨hresid, ?_⟩
        simp only [Bool.not_eq_true] at hrem
        simpa using hrem
      · intro hcontra
        simp at hcontra

/-- C3 (witness): a two-operation proposal, both selected; the first
succeeds, the second fails; both are attempted and only the failed one
remains in the residual proposal. -/
theorem handleApplyProposal_spec_witness :
    handleApplyProposal applyOpSample sampleProposal (fun _ => true) 0
        = .applied 1 [0, 1] [1]
            (some { summary := "남은 변경안 1건",
                    operations := [.delete { taskId := "t", reason := none }] })
      ∧ [0, 1] = (List.range sampleProposal.operations.length).filter (fun _ => true)
      ∧ [AgentOperation.delete { taskId := "t", reason := none }]
          = residualOperations sampleProposal.operations (fun _ => true) [1] := by
  have heq : handleApplyProposal applyOpSample sampleProposal (fun _ => true) 0
      = .applied 1 [0, 1] [1]
          (some { summary := "남은 변경안 1건",
                  operations := [.delete { taskId := "t", reason := none }] }) := by decide
  have h := handleApplyProposal_spec applyOpSample sampleProposal (fun _ => true) 0
    1 [0, 1] [1] _ heq
  exact ⟨heq, h.1, (h.2.2.1 _ rfl).1⟩

/-- Helper: dropping a proper prefix keeps the last element. -/
theorem getLast_of_drop {α : Type} : ∀ (l : List α) (k : Nat), k < l.length →
    (l.drop k).getLast? = l.getLast? := by
  intro l
  induction l with
  | nil => intro k h; simp at h
  | cons x xs ih =>
    intro k h
    cases k with
    | zero => rfl
    | succ k =>
      rw [List.drop_succ_cons, ih k (by simpa using h)]
      cases xs with
      | nil => simp at h
      | cons y ys => rw [List.getLast?_cons_cons]

/-- Helper: the push-and-trim step leaves the new entry on top. -/
theorem pushTrim_getLast (stack : List UndoEntry) (e : UndoEntry) :
    (pushTrim stack e).getLast? = some e := by
  rw [pushTrim]
  by_cases h : (stack ++ [e]).length > MAX_UNDO_STACK
  · rw [if_pos h, getLast_of_drop _ _ (by simp [MAX_UNDO_STACK] at h ⊢; omega)]
    exact List.getLast?_concat _
  · rw [if_neg h]
    exact List.getLast?_concat _

/-- Helper: inverting the single-upsert decoder. -/
theorem singleUpsertTask_some (e : UndoEntry) (ms : Int) (t : Task)
    (h : singleUpsertTask e = some (ms, t)) : ∃ d, e = .upsert_tasks ms d [t] := by
  cases e with
  | delete_tasks ms2 d ids => simp [singleUpsertTask] at h
  | upsert_tasks ms2 d ts =>
    match ts with
    | [] => simp [singleUpsertTask] at h
    | [x] =>
      simp only [singleUpsertTask, Option.some.injEq, Prod.mk.injEq] at h
      exact ⟨d, by rw [h.1, h.2]⟩
    | x :: y :: r => simp [singleUpsertTask] at h

/-- Helper: a `delete_tasks` entry is never merged. -/
theorem pushUndo_delete_eq (nowMs createdMs : Int) (d : String) (ids : List String)
    (stack : List UndoEntry) :
    pushUndo nowMs (.delete_tasks createdMs d ids) stack
      = pushTrim stack (.delete_tasks createdMs d ids) := by
  rw [pushUndo, isMergeableEntry]
  rfl

/-- Helper: a single-task upsert entry is pushed (not merged) when the
merge window does not apply to the current top of the stack. -/
theorem pushUndo_upsert_single_eq (nowMs createdMs : Int) (d : String) (t : Task)
    (stack : List UndoEntry) (hnm : NoUndoMerge stack t.id nowMs) :
    pushUndo nowMs (.upsert_tasks createdMs d [t]) stack
      = pushTrim stack (.upsert_tasks createdMs d [t]) := by
  have hmerge : isMergeableEntry nowMs (.upsert_tasks createdMs d [t]) stack.getLast? = false := by
    rw [isMergeableEntry]
    rcases hb : stack.getLast?.bind singleUpsertTask with _ | ⟨lastMs, lt⟩
    · rfl
    · obtain ⟨lastEntry, hlast, hsub⟩ := Option.bind_eq_some.mp hb
      obtain ⟨d2, rfl⟩ := singleUpsertTask_some lastEntry lastMs lt hsub
      show (decide (lt.id = t.id) && decide (nowMs - lastMs < UPDATE_UNDO_MERGE_WINDOW_MS)) = false
      by_cases hid : lt.id = t.id
      · have hwf : decide (nowMs - lastMs < UPDATE_UNDO_MERGE_WINDOW_MS) = false :=
          decide_eq_false (not_lt.mpr (hnm lastMs d2 lt hlast hid))
        simp [hwf]
      · simp [hid]
  rw [pushUndo, hmerge]
  simp

/-- Helper: a `delete_tasks` entry is never merged, so it ends on top. -/
theorem pushUndo_getLast_delete (nowMs createdMs : Int) (d : String) (ids : List String)
    (stack : List UndoEntry) :
    (pushUndo nowMs (.delete_tasks createdMs d ids) stack).getLast?
      = some (.delete_tasks createdMs d ids) := by
  rw [pushUndo_delete_eq]
  exact pushTrim_getLast ..

/-- Helper: a single-task upsert entry ends on top when the merge window
does not apply to the current top of the stack. -/
theorem pushUndo_getLast_upsert (nowMs createdMs : Int) (d : String) (t : Task)
    (stack : List UndoEntry) (hnm : NoUndoMerge stack t.id nowMs) :
    (pushUndo nowMs (.upsert_tasks createdMs d [t]) stack).getLast?
      = some (.upsert_tasks createdMs d [t]) := by
  rw [pushUndo_upsert_single_eq nowMs createdMs d t stack hnm]
  exact pushTrim_getLast ..

/-- Helper: `undoLastChange` on a `delete_tasks` top entry. -/
theorem undoLastChange_delete (st : DbState) (ms : Int) (d : String) (ids : List String)
    (h : st.undoStack.getLast? = some (.delete_tasks ms d ids)) :
    undoLastChange st = { tasks := dbBulkDelete st.tasks ids, undoStack := st.undoStack.dropLast } := by
  rw [undoLastChange, h]

/-- Helper: `undoLastChange` on an `upsert_tasks` top entry. -/
theorem undoLastChange_upsert (st : DbState) (ms : Int) (d : String) (ts : List Task)
    (h : st.undoStack.getLast? = some (.upsert_tasks ms d ts)) :
    undoLastChange st = { tasks := dbBulkPut st.tasks ts, undoStack := st.undoStack.dropLast } := by
  rw [undoLastChange, h]

/-- Helper: filtering with a predicate implied by the search predicate
does not change `find?`. -/
theorem find_filter_of_imp {p q : Task → Bool} : ∀ (l : List Task),
    (∀ t, q t = true → p t = true) →
    (l.filter p).find? q = l.find? q := by
  intro l h
  induction l with
  | nil => rfl
  | cons x xs ih =>
    by_cases hp : p x = true
    · rw [List.filter_cons_of_pos hp, List.find?_cons, List.find?_cons]
      cases q x <;> simp [ih]
    · have hq : q x = false := by
        cases hqx : q x
        · rfl
        · exact absurd (h x hqx) (by simpa using hp)
      rw [List.filter_cons_of_neg (by simpa using hp), List.find?_cons, hq, ih]

/-- Helper: a found record is a member whose id is the key. -/
theorem dbGet_spec (store : List Task) (id : String) (t : Task)
    (h : dbGet store id = some t) : t ∈ store ∧ t.id = id := by
  refine ⟨List.mem_of_find?_eq_some h, ?_⟩
  have := List.find?_some h
  simpa using this

/-- Helper: undo right after `createTask`, composed. -/
theorem undo_create_eq (shiftDate : String → RecurrencePattern → Nat → String) (now : String)
    (nowMs : Int) (freshIds : Nat → String) (groupId : String) (input : TaskFormInput)
    (st : DbState) :
    undoLastChange (createTask shiftDate now nowMs freshIds groupId input st)
      = { tasks := dbBulkDelete (dbBulkAdd st.tasks (createRecords shiftDate now freshIds groupId input))
            ((createRecords shiftDate now freshIds groupId input).map Task.id),
          undoStack := (pushUndo nowMs
            (.delete_tasks nowMs
              (createDescription input (createRecords shiftDate now freshIds groupId input).length)
              ((createRecords shiftDate now freshIds groupId input).map Task.id))
            st.undoStack).dropLast } := by
  have hlast := pushUndo_getLast_delete nowMs nowMs
    (createDescription input (createRecords shiftDate now freshIds groupId input).length)
    ((createRecords shiftDate now freshIds groupId input).map Task.id) st.undoStack
  exact undoLastChange_delete _ _ _ _ hlast

/-- Helper: undo right after an effective `updateTask`, composed. -/
theorem undo_update_eq (now : String) (nowMs : Int) (id : String) (input : TaskFormInput)
    (st : DbState) (existing : Task)
    (hget : dbGet st.tasks id = some existing)
    (hchanged : serializeTaskForEquality existing
      ≠ serializeTaskForEquality (mkNextTask now existing input))
    (hnm : NoUndoMerge st.undoStack existing.id nowMs) :
    undoLastChange (updateTask now nowMs id input st)
      = { tasks := dbBulkPut (dbPut st.tasks (mkNextTask now existing input)) [existing],
          undoStack := (pushUndo nowMs
            (.upsert_tasks nowMs ("일정 수정: " ++ existing.title) [existing])
            st.undoStack).dropLast } := by
  have hstep : updateTask now nowMs id input st
      = { tasks := dbPut st.tasks (mkNextTask now existing input),
          undoStack := pushUndo nowMs
            (.upsert_tasks nowMs ("일정 수정: " ++ existing.title) [existing]) st.undoStack } := by
    rw [updateTask, hget]
    exact if_neg hchanged
  rw [hstep]
  exact undoLastChange_upsert _ _ _ _
    (pushUndo_getLast_upsert nowMs nowMs ("일정 수정: " ++ existing.title) existing
      st.undoStack hnm)

/-- Helper: undo right after `removeTask`, composed. -/
theorem undo_remove_eq (nowMs : Int) (id : String) (st : DbState) (existing : Task)
    (hget : dbGet st.tasks id = some existing)
    (hnm : NoUndoMerge st.undoStack existing.id nowMs) :
    undoLastChange (removeTask nowMs id st)
      = { tasks := dbBulkPut (dbDelete st.tasks id) [existing],
          undoStack := (pushUndo nowMs
            (.upsert_tasks nowMs ("일정 삭제: " ++ existing.title) [existing])
            st.undoStack).dropLast } := by
  have hstep : removeTask nowMs id st
      = { tasks := dbDelete st.tasks id,
          undoStack := pushUndo nowMs
            (.upsert_tasks nowMs ("일정 삭제: " ++ existing.title) [existing]) st.undoStack } := by
    rw [removeTask, hget]
  rw [hstep]
  exact undoLastChange_upsert _ _ _ _
    (pushUndo_getLast_upsert nowMs nowMs ("일정 삭제: " ++ existing.title) existing
      st.undoStack hnm)

/-- C4 (amended): the undo inverses, with the provisos the merge window
forces. (a) After `createTask` (also a recurring batch, which pushes one
entry for every created id) followed by undo, every created id is absent
— unconditionally, since `delete_tasks` entries are never merged.
(b) After an effective `updateTask` (task found, value actually changed)
whose undo entry was not merged away, undo restores the task list
exactly. (c) After `removeTask` (task found) whose undo entry was not
merged away, every id lookup is as before: the task reappears with
identical fields. (d) Undo on an empty stack is a no-op. -/
theorem undoLastChange_spec :
    (∀ (shiftDate : String → RecurrencePattern → Nat → String) (now : String) (nowMs : Int)
        (freshIds : Nat → String) (groupId : String) (input : TaskFormInput) (st : DbState),
      ∀ id', id' ∈ (createRecords shiftDate now freshIds groupId input).map Task.id →
        dbGet (undoLastChange (createTask shiftDate now nowMs freshIds groupId input st)).tasks id'
          = none)
    ∧ (∀ (now : String) (nowMs : Int) (id : String) (input : TaskFormInput) (st : DbState)
          (existing : Task),
        (st.tasks.map Task.id).Nodup →
        dbGet st.tasks id = some existing →
        serializeTaskForEquality existing ≠ serializeTaskForEquality (mkNextTask now existing input) →
        NoUndoMerge st.undoStack existing.id nowMs →
        (undoLastChange (updateTask now nowMs id input st)).tasks = st.tasks)
    ∧ (∀ (nowMs : Int) (id : String) (st : DbState) (existing : Task),
        dbGet st.tasks id = some existing →
        NoUndoMerge st.undoStack existing.id nowMs →
        ∀ k, dbGet (undoLastChange (removeTask nowMs id st)).tasks k = dbGet st.tasks k)
    ∧ (∀ st : DbState, st.undoStack = [] → undoLastChange st = st) := by
  refine ⟨?_, ?_, ?_, ?_⟩
  · intro shiftDate now nowMs freshIds groupId input st id' hid
    rw [undo_create_eq]
    show ((dbBulkAdd st.tasks (createRecords shiftDate now freshIds groupId input)).filter
      (fun t => !((createRecords shiftDate now freshIds groupId input).map Task.id).contains t.id)).find?
        (fun t => t.id == id') = none
    refine List.find?_eq_none.mpr (fun x hx hcontra => ?_)
    have hxid : x.id = id' := by simpa using hcontra
    have hpass := (List.mem_filter.mp hx).2
    rw [hxid] at hpass
    have hmem : ((createRecords shiftDate now freshIds groupId input).map Task.id).contains id'
        = true := List.elem_iff.mpr hid
    rw [hmem] at hpass
    simp at hpass
  · intro now nowMs id input st existing hnodup hget hchanged hnm
    obtain ⟨hmem, hexid⟩ := dbGet_spec st.tasks id existing hget
    have hnextid : (mkNextTask now existing input).id = existing.id := rfl
    rw [undo_update_eq now nowMs id input st existing hget hchanged hnm]
    show dbBulkPut (dbPut st.tasks (mkNextTask now existing input)) [existing] = st.tasks
    have hany1 : st.tasks.any (fun t => t.id == (mkNextTask now existing input).id) = true :=
      List.any_eq_true.mpr ⟨existing, hmem, by simp [hnextid]⟩
    have hinner : dbPut st.tasks (mkNextTask now existing input)
        = st.tasks.map (fun t => if t.id == (mkNextTask now existing input).id
            then mkNextTask now existing input else t) := by
      rw [dbPut, if_pos hany1]
    have hmem2 : (mkNextTask now existing input)
        ∈ st.tasks.map (fun t => if t.id == (mkNextTask now existing input).id
          then mkNextTask now existing input else t) := by
      refine List.mem_map.mpr ⟨existing, hmem, ?_⟩
      simp [hnextid]
    have hany2 : (st.tasks.map (fun t => if t.id == (mkNextTask now existing input).id
        then mkNextTask now existing input else t)).any (fun t => t.id == existing.id) = true :=
      List.any_eq_true.mpr ⟨mkNextTask now existing input, hmem2, by simp [hnextid]⟩
    rw [dbBulkPut, List.foldl_cons, List.foldl_nil, hinner, dbPut, if_pos hany2, List.map_map]
    refine (List.map_congr_left (fun t ht => ?_)).trans (List.map_id _)
    by_cases hid2 : t.id = existing.id
    · have ht_eq : t = existing :=
        List.inj_on_of_nodup_map hnodup ht hmem (by rw [hid2])
      subst ht_eq
      simp [Function.comp, hnextid]
    · simp [Function.comp, hnextid, hid2]
  · intro nowMs id st existing hget hnm k
    obtain ⟨hmem, hexid⟩ := dbGet_spec st.tasks id existing hget
    rw [undo_remove_eq nowMs id st existing hget hnm]
    show dbGet (dbBulkPut (dbDelete st.tasks id) [existing]) k = dbGet st.tasks k
    have hany : (dbDelete st.tasks id).any (fun t => t.id == existing.id) = false := by
      rw [← Bool.not_eq_true, List.any_eq_true]
      rintro ⟨t, htmem, htid⟩
      have h1 := (List.mem_filter.mp htmem).2
      rw [hexid] at htid
      have htid2 : t.id = id := by simpa using htid
      simp [htid2] at h1
    rw [dbBulkPut, List.foldl_cons, List.foldl_nil, dbPut, hany]
    simp only [Bool.false_eq_true, if_false]
    rw [dbGet, List.find?_append]
    by_cases hk : k = id
    · subst hk
      have hnone : (dbDelete st.tasks k).find? (fun t => t.id == k) = none := by
        refine List.find?_eq_none.mpr (fun x hx hcontra => ?_)
        have h1 := (List.mem_filter.mp hx).2
        have hxid : x.id = k := by simpa using hcontra
        simp [hxid] at h1
      rw [hnone]
      rw [dbGet] at hget
      simp [List.find?_cons, hexid, dbGet, hget]
    · rw [dbDelete, find_filter_of_imp st.tasks (fun t ht => ?_)]
      · cases hfind : st.tasks.find? (fun t => t.id == k) with
        | some t => simp [dbGet, hfind]
        | none =>
          have hbeq : (existing.id == k) = false := by
            simp [hexid]
            exact fun h => hk h.symm
          simp [dbGet, hfind, List.find?_cons, hbeq]
      · have ht2 : t.id = k := by simpa using ht
        simp [ht2, hk]
  · intro st h
    rw [undoLastChange, h]
    rfl

/-- C4 (counterexample to the unrestricted claim): with a recent
single-task upsert entry for the same task on top of the stack, an
update's undo entry is merged away and undo restores the older snapshot
`cxTaskS0`, not the prior value `cxTaskS1`. -/
theorem undo_merge_counterexample :
    dbGet (undoLastChange (updateTask "n" 1001 "a" cxInput cxState)).tasks "a" = some cxTaskS0
      ∧ dbGet cxState.tasks "a" = some cxTaskS1
      ∧ cxTaskS0 ≠ cxTaskS1 := by
  refine ⟨by decide, by decide, by decide⟩

/-- C4 (witness): the four amended conjuncts at concrete inputs. -/
theorem undoLastChange_spec_witness :
    dbGet (undoLastChange (createTask (fun s _ _ => s) "now" 0 (fun i => "new-" ++ toString i)
        "g" createInput st0)).tasks "new-0" = none
      ∧ (undoLastChange (updateTask "n" 0 "a" updInput st0)).tasks = st0.tasks
      ∧ dbGet (undoLastChange (removeTask 0 "a" st0)).tasks "a" = dbGet st0.tasks "a"
      ∧ undoLastChange st0 = st0 := by
  have h := undoLastChange_spec
  refine ⟨h.1 (fun s _ _ => s) "now" 0 (fun i => "new-" ++ toString i) "g" createInput st0
      "new-0" (by decide), ?_, ?_, h.2.2.2 st0 rfl⟩
  · exact h.2.1 "n" 0 "a" updInput st0 bTask (by decide) (by decide) (by decide)
      (by intro a b c hc _; simp [st0] at hc)
  · exact h.2.2.1 0 "a" st0 bTask (by decide)
      (by intro a b c hc _; simp [st0] at hc) "a"

/-- Helper: `dropWhile` is idempotent. -/
theorem dropWhile_idem {α : Type} (p : α → Bool) : ∀ l : List α,
    (l.dropWhile p).dropWhile p = l.dropWhile p := by
  intro l
  induction l with
  | nil => rfl
  | cons x xs ih =>
    rw [List.dropWhile_cons]
    by_cases h : p x = true
    · rw [if_pos h]
      exact ih
    · rw [if_neg h, List.dropWhile_cons, if_neg h]

/-- Helper: a prefix of a `dropWhile` fixpoint is itself a fixpoint. -/
theorem dropWhile_fixpoint_of_prefix {α : Type} (p : α → Bool) (l m : List α)
    (hfix : l.dropWhile p = l) (hpre : m <+: l) : m.dropWhile p = m := by
  cases m with
  | nil => rfl
  | cons a as =>
    obtain ⟨t, ht⟩ := hpre
    have hpa : p a = false := by
      cases hpa : p a
      · rfl
      · exfalso
        rw [← ht] at hfix
        simp only [List.cons_append] at hfix
        rw [List.dropWhile_cons, if_pos hpa] at hfix
        have hlen := congrArg List.length hfix
        have hle : ((as ++ t).dropWhile p).length ≤ (as ++ t).length :=
          (List.dropWhile_suffix p).sublist.length_le
        simp only [List.length_cons] at hlen
        omega
    rw [List.dropWhile_cons, if_neg (by simp [hpa])]

/-- Helper: one full trim pass is a fixpoint of another. -/
theorem trimChars_idem (l : List Char) :
    ((((l.dropWhile Char.isWhitespace).reverse.dropWhile Char.isWhitespace).reverse.dropWhile
        Char.isWhitespace).reverse.dropWhile Char.isWhitespace).reverse
      = ((l.dropWhile Char.isWhitespace).reverse.dropWhile Char.isWhitespace).reverse := by
  have hfix : (l.dropWhile Char.isWhitespace).dropWhile Char.isWhitespace
      = l.dropWhile Char.isWhitespace := dropWhile_idem _ _
  have hpre : (((l.dropWhile Char.isWhitespace).reverse.dropWhile
      Char.isWhitespace).reverse : List Char) <+: l.dropWhile Char.isWhitespace := by
    have h1 := List.dropWhile_suffix (l := (l.dropWhile Char.isWhitespace).reverse)
      Char.isWhitespace
    have h2 := List.reverse_prefix.mpr h1
    rwa [List.reverse_reverse] at h2
  have hA := dropWhile_fixpoint_of_prefix Char.isWhitespace _ _ hfix hpre
  rw [hA, List.reverse_reverse, dropWhile_idem]

/-- Helper: JS `trim` is idempotent. -/
theorem jsTrim_idem (s : String) : jsTrim (jsTrim s) = jsTrim s :=
  congrArg String.mk (trimChars_idem s.data)

/-- C10: an `updateTask` whose normalized fields all equal the stored
task's current values leaves the whole provider state unchanged: no
write, no `updatedAt` bump, no undo entry. -/
theorem updateTask_identical_noop (now : String) (nowMs : Int) (id : String)
    (input : TaskFormInput) (st : DbState) (existing : Task)
    (hget : dbGet st.tasks id = some existing)
    (htitle : jsTrim input.title = existing.title)
    (hcontent : jsTrim input.content = existing.content)
    (htt : input.taskTypeId = existing.taskTypeId)
    (hpj : input.projectId = existing.projectId)
    (hst : input.status = existing.status)
    (hstart : input.startAt = existing.startAt)
    (hend : normalizeEndAt input.endAt = existing.endAt)
    (hmaj : input.isMajor = existing.isMajor) :
    updateTask now nowMs id input st = st := by
  have heq : serializeTaskForEquality existing
      = serializeTaskForEquality (mkNextTask now existing input) := by
    have h1 : jsTrim existing.title = existing.title := by rw [← htitle, jsTrim_idem]
    have h2 : jsTrim existing.content = existing.content := by rw [← hcontent, jsTrim_idem]
    simp only [serializeTaskForEquality, mkNextTask, trimTaskInput, TaskEqualityKey.mk.injEq]
    simp [htitle, hcontent, h1, h2, htt, hpj, hst, hstart, hend, hmaj]
  rw [updateTask, hget]
  exact if_pos heq

/-- C10 (witness): an input equal to the stored task after trimming is a
silent no-op. -/
theorem updateTask_identical_noop_witness :
    updateTask "2026-02-12T00:00:00.000Z" 99 "a" noopInput st0 = st0 :=
  updateTask_identical_noop "2026-02-12T00:00:00.000Z" 99 "a" noopInput st0 bTask
    (by decide) (by decide) (by decide) (by decide) (by decide) (by decide) (by decide)
    (by decide) (by decide)

end AIPlanner
